import Mathlib

/-!
Verification of the goodfido world server (`server.js`) against its
natural-language specification.  Every definition in this file is a shallow
embedding of a function or handler of `server.js`; line numbers in doc
comments refer to that file.  JavaScript numbers are modelled as `Int`
(all values relevant to the claims are integers), JavaScript `null` /
`undefined` as `Option.none`, and JavaScript truthiness of a nullable
number (`v` is falsy iff it is `null`, `undefined` or `0`) by `optTruthy`.
File-system reads and writes are modelled by explicit parameters and
result fields, and `Math.random` outcomes are passed as parameters.
-/

namespace GoodFido

/-- JavaScript truthiness of a nullable number: `null`/`undefined` and `0`
are falsy, every other number is truthy.  Used to embed guards such as
`inst.respawnAfterSec && inst.removedAt` (server.js:1355). -/
def optTruthy : Option Int → Bool
  | none => false
  | some n => n != 0

/-- Replace the first element satisfying `p` by `a` (the effect of mutating,
in place, the object returned by `Array.prototype.find`). -/
def replaceFirst (p : α → Bool) (a : α) : List α → List α
  | [] => []
  | x :: xs => if p x then a :: xs else x :: replaceFirst p a xs

/-- Update the element at index `n` (out-of-range indices leave the list
unchanged); models an assignment `arr[n].field = v`. -/
def updAt (n : Nat) (f : α → α) : List α → List α
  | [] => []
  | x :: xs =>
    match n with
    | 0 => f x :: xs
    | Nat.succ m => x :: updAt m f xs

/-! ## Object instances (server.js:368-443) -/

/-- A live object instance, as stored in `objectInstances[]` and persisted
to `objects-state.json` (server.js:419-429). -/
structure ObjInstance where
  instanceId : String
  typeId : String
  zone : String
  roomId : Int
  x : Int
  y : Int
  pickedUpBy : Option String
  removedAt : Option Int
  respawnAfterSec : Option Int
deriving DecidableEq, Repr

/-- A spawn definition gathered from a room file's `spawns` array,
augmented with its zone key and room id (server.js:398-405). -/
structure SpawnDef where
  typeId : String
  zone : String
  roomId : Int
  x : Int
  y : Int
  respawnAfterSec : Option Int
deriving DecidableEq, Repr

/-- Boot reconciliation for one spawn definition (server.js:409-431): if no
live instance matches the definition's type and location, append a fresh
unowned instance (`newId` stands for the `crypto.randomBytes` draw). -/
def ensureSpawnInstance (newId : String) (objs : List ObjInstance) (d : SpawnDef) :
    List ObjInstance :=
  if objs.any (fun i =>
      i.typeId == d.typeId && i.zone == d.zone && i.roomId == d.roomId &&
      i.x == d.x && i.y == d.y) then
    objs
  else
    objs ++ [{
      instanceId := newId, typeId := d.typeId, zone := d.zone,
      roomId := d.roomId, x := d.x, y := d.y, pickedUpBy := none,
      removedAt := none, respawnAfterSec := d.respawnAfterSec }]

/-- Boot reconciliation over all spawn definitions (`spawnDefs.forEach`,
server.js:409); `idGen` supplies the random instance ids. -/
def reconcileSpawns (idGen : Nat → String) (objs : List ObjInstance)
    (defs : List SpawnDef) : List ObjInstance :=
  (defs.foldl (fun (acc : List ObjInstance × Nat) d =>
      (ensureSpawnInstance (idGen acc.2) acc.1 d, acc.2 + 1)) (objs, 0)).1

/-- Payload of a client `pickup` request (server.js:893-898): `zone` is sent
as a number and stringified by the handler. -/
structure PickupMsg where
  instanceId : String
  zone : Int
  roomId : Int
deriving DecidableEq, Repr

/-- The `object-picked` broadcast sent to a room (server.js:910-914). -/
structure PickedBroadcast where
  zone : String
  roomId : Int
  inst : ObjInstance
  playerId : Nat
deriving DecidableEq, Repr

/-- The `pickup` message handler (server.js:893-916).  Returns the updated
instance list, the room-scoped `object-picked` broadcasts, and whether
`saveObjectsState()` ran.  `name` and `id` are the requesting connection's
player name and connection id, `tick` is `gameTime.tick`. -/
def handlePickup (name : String) (id : Nat) (tick : Int) (msg : PickupMsg)
    (objs : List ObjInstance) :
    List ObjInstance × List PickedBroadcast × Bool :=
  let zoneKey := toString msg.zone
  match objs.find? (fun i => i.instanceId == msg.instanceId) with
  | some inst =>
    if inst.pickedUpBy == none && inst.zone == zoneKey && inst.roomId == msg.roomId then
      let inst' := { inst with pickedUpBy := some name, removedAt := some tick }
      (replaceFirst (fun i => i.instanceId == msg.instanceId) inst' objs,
       [{ zone := zoneKey, roomId := inst.roomId, inst := inst', playerId := id }],
       true)
    else
      (objs, [], false)
  | none => (objs, [], false)

/-- Payload of a client `drop` request (server.js:918-927). -/
structure DropMsg where
  instanceId : String
  zone : Int
  roomId : Int
  x : Int
  y : Int
deriving DecidableEq, Repr

/-- The `object-dropped` broadcast sent to a room (server.js:929-932). -/
structure DroppedBroadcast where
  zone : String
  roomId : Int
  inst : ObjInstance
deriving DecidableEq, Repr

/-- The `drop` message handler (server.js:918-937), without the trailing
player-record persistence (modelled separately where needed). -/
def handleDrop (name : String) (msg : DropMsg) (objs : List ObjInstance) :
    List ObjInstance × List DroppedBroadcast × Bool :=
  let zoneKey := toString msg.zone
  match objs.find? (fun i => i.instanceId == msg.instanceId) with
  | some inst =>
    if inst.pickedUpBy == some name then
      let inst' := { inst with
        pickedUpBy := none, removedAt := none,
        x := msg.x, y := msg.y, zone := zoneKey, roomId := msg.roomId }
      (replaceFirst (fun i => i.instanceId == msg.instanceId) inst' objs,
       [{ zone := zoneKey, roomId := msg.roomId, inst := inst' }],
       true)
    else
      (objs, [], false)
  | none => (objs, [], false)

/-- The `object-spawned` broadcast emitted by the respawn sweep
(server.js:1361-1364). -/
structure SpawnedBroadcast where
  zone : String
  roomId : Int
  inst : ObjInstance
deriving DecidableEq, Repr

/-- One instance's respawn check in the tick sweep (server.js:1354-1366).
The guard is the literal truthiness test
`inst.pickedUpBy !== null && inst.respawnAfterSec && inst.removedAt`,
so a `removedAt` or `respawnAfterSec` equal to `0` is skipped.  Returns the
(possibly) updated instance and whether it respawned this tick. -/
def respawnOne (tick : Int) (inst : ObjInstance) : ObjInstance × Bool :=
  if inst.pickedUpBy != none && optTruthy inst.respawnAfterSec &&
      optTruthy inst.removedAt then
    let elapsed := tick - inst.removedAt.getD 0
    if elapsed ≥ inst.respawnAfterSec.getD 0 then
      ({ inst with pickedUpBy := none, removedAt := none }, true)
    else (inst, false)
  else (inst, false)

/-- The object respawn sweep run each tick (`objectInstances.forEach`,
server.js:1353-1367): every instance is checked, respawned instances are
broadcast to their room. -/
def objectRespawnSweep (tick : Int) (objs : List ObjInstance) :
    List ObjInstance × List SpawnedBroadcast :=
  (objs.map (fun i => (respawnOne tick i).1),
   (objs.filterMap (fun i =>
     let r := respawnOne tick i
     if r.2 then some { zone := r.1.zone, roomId := r.1.roomId, inst := r.1 }
     else none)))

/-! ## Theorems about the object lifecycle -/

/-- `replaceFirst` keeps `map f` unchanged when the replacement agrees with
the replaced element on `f`. -/
theorem replaceFirst_map_eq {α β : Type} (f : α → β) (p : α → Bool) (a : α) :
    ∀ (l : List α) (x : α), l.find? p = some x → f a = f x →
      (replaceFirst p a l).map f = l.map f := by
  intro l
  induction l with
  | nil => intro x h; simp [List.find?] at h
  | cons y ys ih =>
    intro x h hfa
    by_cases hy : p y
    · simp [List.find?, hy] at h
      subst h
      simp [replaceFirst, hy, hfa]
    · simp [List.find?, hy] at h
      simp [replaceFirst, hy, ih x h hfa]

/-- `ensureSpawnInstance` only ever appends. -/
theorem ensureSpawnInstance_append (newId : String) (objs : List ObjInstance)
    (d : SpawnDef) : ∃ r, ensureSpawnInstance newId objs d = objs ++ r := by
  unfold ensureSpawnInstance
  split
  · exact ⟨[], by simp⟩
  · exact ⟨_, rfl⟩

/-- The reconciliation fold only ever appends. -/
theorem reconcileSpawns_fold_append (idGen : Nat → String) :
    ∀ (defs : List SpawnDef) (objs : List ObjInstance) (n : Nat),
      ∃ rest,
        (defs.foldl (fun (acc : List ObjInstance × Nat) d =>
          (ensureSpawnInstance (idGen acc.2) acc.1 d, acc.2 + 1)) (objs, n)).1 =
        objs ++ rest := by
  intro defs
  induction defs with
  | nil => intro objs n; exact ⟨[], by simp⟩
  | cons d ds ih =>
    intro objs n
    obtain ⟨r1, hr1⟩ := ensureSpawnInstance_append (idGen n) objs d
    obtain ⟨r2, hr2⟩ := ih (ensureSpawnInstance (idGen n) objs d) (n + 1)
    refine ⟨r1 ++ r2, ?_⟩
    simp only [List.foldl_cons]
    rw [hr2, hr1, List.append_assoc]

/-- C1: for a `pickup` request, if the instance found for the requested
`instanceId` is unowned and in the request's (stringified) zone and room,
the handler marks it owned by the requesting player, stamps `removedAt`
with the current tick, persists the object state and broadcasts one
`object-picked` message to the instance's room; if the instance is not
found or any precondition fails, the instance list is unchanged, nothing
is broadcast and nothing is persisted. -/
theorem pickup_spec (name : String) (id : Nat) (tick : Int) (msg : PickupMsg)
    (objs : List ObjInstance) :
    (∀ inst, objs.find? (fun i => i.instanceId == msg.instanceId) = some inst →
      inst.pickedUpBy = none → inst.zone = toString msg.zone →
      inst.roomId = msg.roomId →
      handlePickup name id tick msg objs =
        (replaceFirst (fun i => i.instanceId == msg.instanceId)
           { inst with pickedUpBy := some name, removedAt := some tick } objs,
         [{ zone := inst.zone, roomId := inst.roomId,
            inst := { inst with pickedUpBy := some name, removedAt := some tick },
            playerId := id }],
         true))
    ∧ (∀ inst, objs.find? (fun i => i.instanceId == msg.instanceId) = some inst →
      ¬(inst.pickedUpBy = none ∧ inst.zone = toString msg.zone ∧
          inst.roomId = msg.roomId) →
      handlePickup name id tick msg objs = (objs, [], false))
    ∧ (objs.find? (fun i => i.instanceId == msg.instanceId) = none →
      handlePickup name id tick msg objs = (objs, [], false)) := by
  refine ⟨?_, ?_, ?_⟩
  · intro inst hfind h1 h2 h3
    simp only [handlePickup, hfind]
    rw [if_pos]
    · simp [h2]
    · simp [h1, h2, h3]
  · intro inst hfind hne
    simp only [handlePickup, hfind]
    rw [if_neg]
    intro hc
    simp only [Bool.and_eq_true, beq_iff_eq] at hc
    exact hne ⟨by simpa using hc.1.1, hc.1.2, hc.2⟩
  · intro hfind
    simp [handlePickup, hfind]

/-- Witness for `pickup_spec` at a concrete successful pickup. -/
theorem pickup_spec_witness :
    handlePickup "ava" 3 7 { instanceId := "i1", zone := 0, roomId := 2 }
      [{ instanceId := "i1", typeId := "t", zone := "0", roomId := 2, x := 1, y := 1,
         pickedUpBy := none, removedAt := none, respawnAfterSec := some 4 }] =
      ([{ instanceId := "i1", typeId := "t", zone := "0", roomId := 2, x := 1, y := 1,
          pickedUpBy := some "ava", removedAt := some 7, respawnAfterSec := some 4 }],
       [{ zone := "0", roomId := 2,
          inst := { instanceId := "i1", typeId := "t", zone := "0", roomId := 2,
                    x := 1, y := 1, pickedUpBy := some "ava", removedAt := some 7,
                    respawnAfterSec := some 4 },
          playerId := 3 }],
       true) := by
  have h := (pickup_spec "ava" 3 7 { instanceId := "i1", zone := 0, roomId := 2 }
      [{ instanceId := "i1", typeId := "t", zone := "0", roomId := 2, x := 1, y := 1,
         pickedUpBy := none, removedAt := none, respawnAfterSec := some 4 }]).1
      { instanceId := "i1", typeId := "t", zone := "0", roomId := 2, x := 1, y := 1,
        pickedUpBy := none, removedAt := none, respawnAfterSec := some 4 }
      (by decide) rfl (by decide) rfl
  simpa [replaceFirst] using h

/-- The concrete instance refuting claim C2: picked up at tick 0, so
`removedAt = 0` is falsy and the respawn guard
`inst.respawnAfterSec && inst.removedAt` (server.js:1355) skips it
forever. -/
def tickZeroInst : ObjInstance :=
  { instanceId := "i1", typeId := "t1", zone := "0", roomId := 0, x := 1, y := 2,
    pickedUpBy := some "alice", removedAt := some 0, respawnAfterSec := some 5 }

/-- C2 counterexample: an owned instance with `respawnAfterSec = 5` whose
removal was stamped at tick 0 is *not* made unowned by the sweep at tick
100, even though `100 − 0 ≥ 5`; no `object-spawned` broadcast is emitted.
This refutes the claim's assertion that the respawn happens "for every
value removedAt may have been stamped with, including a removal stamped at
tick 0". -/
theorem respawn_tick_zero_cex :
    tickZeroInst.pickedUpBy = some "alice" ∧
    tickZeroInst.respawnAfterSec = some 5 ∧
    tickZeroInst.removedAt = some 0 ∧
    (100 : Int) - 0 ≥ 5 ∧
    objectRespawnSweep 100 [tickZeroInst] = ([tickZeroInst], []) := by
  refine ⟨rfl, rfl, rfl, by norm_num, ?_⟩
  simp [objectRespawnSweep, respawnOne, tickZeroInst, optTruthy]

/-- C2 (amended): for an owned instance whose `respawnAfterSec = R` and
`removedAt = r` are both non-null *and non-zero* (the code's truthiness
guard), the sweep makes it unowned (`pickedUpBy = null`, `removedAt =
null`) at the first tick with `tick − r ≥ R`, emitting exactly one
`object-spawned` broadcast to the instance's room for that transition:
before that tick nothing changes, and once unowned the sweep never
re-emits. -/
theorem respawn_amended (tick R r : Int) (p : String) (inst : ObjInstance)
    (hp : inst.pickedUpBy = some p) (hR : inst.respawnAfterSec = some R)
    (hR0 : R ≠ 0) (hr : inst.removedAt = some r) (hr0 : r ≠ 0) :
    (tick - r ≥ R →
      objectRespawnSweep tick [inst] =
        ([{ inst with pickedUpBy := none, removedAt := none }],
         [{ zone := inst.zone, roomId := inst.roomId,
            inst := { inst with pickedUpBy := none, removedAt := none } }]))
    ∧ (tick - r < R → objectRespawnSweep tick [inst] = ([inst], []))
    ∧ (∀ t : Int,
        objectRespawnSweep t [{ inst with pickedUpBy := none, removedAt := none }] =
          ([{ inst with pickedUpBy := none, removedAt := none }], [])) := by
  refine ⟨?_, ?_, ?_⟩
  · intro hge
    simp [objectRespawnSweep, respawnOne, hp, hR, hr, optTruthy, hR0, hr0, hge]
  · intro hlt
    simp [objectRespawnSweep, respawnOne, hp, hR, hr, optTruthy, hR0, hr0,
      not_le.mpr hlt]
  · intro t
    simp [objectRespawnSweep, respawnOne]

/-- Witness for `respawn_amended`: removal stamped at tick 3 with `R = 5`
respawns at tick 8. -/
theorem respawn_amended_witness :
    (8 : Int) - 3 ≥ 5 ∧
    objectRespawnSweep 8
      [{ instanceId := "i2", typeId := "t1", zone := "0", roomId := 1, x := 0, y := 0,
         pickedUpBy := some "bob", removedAt := some 3, respawnAfterSec := some 5 }] =
      ([{ instanceId := "i2", typeId := "t1", zone := "0", roomId := 1, x := 0, y := 0,
          pickedUpBy := none, removedAt := none, respawnAfterSec := some 5 }],
       [{ zone := "0", roomId := 1,
          inst := { instanceId := "i2", typeId := "t1", zone := "0", roomId := 1,
                    x := 0, y := 0, pickedUpBy := none, removedAt := none,
                    respawnAfterSec := some 5 } }]) := by
  refine ⟨by norm_num, ?_⟩
  have h := (respawn_amended 8 5 3 "bob"
      { instanceId := "i2", typeId := "t1", zone := "0", roomId := 1, x := 0, y := 0,
        pickedUpBy := some "bob", removedAt := some 3, respawnAfterSec := some 5 }
      rfl rfl (by norm_num) rfl (by norm_num)).1 (by norm_num)
  simpa using h

/-- C8: no operation on the object-instance registry removes an instance —
boot reconciliation only appends, and pickup, drop and the respawn sweep
preserve the list of instance ids pointwise — and every instance's
`pickedUpBy` is either null (present in world) or exactly one player name,
never both. -/
theorem instance_registry_invariant :
    (∀ (idGen : Nat → String) (objs : List ObjInstance) (defs : List SpawnDef),
      ∃ rest, reconcileSpawns idGen objs defs = objs ++ rest)
    ∧ (∀ name id tick msg (objs : List ObjInstance),
      ((handlePickup name id tick msg objs).1).map (·.instanceId) =
        objs.map (·.instanceId))
    ∧ (∀ name msg (objs : List ObjInstance),
      ((handleDrop name msg objs).1).map (·.instanceId) =
        objs.map (·.instanceId))
    ∧ (∀ tick (objs : List ObjInstance),
      ((objectRespawnSweep tick objs).1).map (·.instanceId) =
        objs.map (·.instanceId))
    ∧ (∀ inst : ObjInstance,
      inst.pickedUpBy = none ∨ ∃ nm, inst.pickedUpBy = some nm) := by
  refine ⟨?_, ?_, ?_, ?_, ?_⟩
  · intro idGen objs defs
    exact reconcileSpawns_fold_append idGen defs objs 0
  · intro name id tick msg objs
    unfold handlePickup
    cases hfind : objs.find? (fun i => i.instanceId == msg.instanceId) with
    | none => simp
    | some inst =>
      by_cases hc : (inst.pickedUpBy == none && inst.zone == toString msg.zone &&
          inst.roomId == msg.roomId) = true
      · simp only [hc, if_true]
        exact replaceFirst_map_eq _ _ _ objs inst hfind rfl
      · simp [hc]
  · intro name msg objs
    unfold handleDrop
    cases hfind : objs.find? (fun i => i.instanceId == msg.instanceId) with
    | none => simp
    | some inst =>
      by_cases hc : (inst.pickedUpBy == some name) = true
      · simp only [hc, if_true]
        exact replaceFirst_map_eq _ _ _ objs inst hfind rfl
      · simp [hc]
  · intro tick objs
    simp only [objectRespawnSweep, List.map_map]
    apply List.map_congr_left
    intro i _
    simp only [Function.comp_apply, respawnOne]
    split <;> [skip; rfl]
    split <;> rfl
  · intro inst
    cases h : inst.pickedUpBy with
    | none => exact Or.inl rfl
    | some nm => exact Or.inr ⟨nm, rfl⟩

/-! ## Game time and the tick scheduler (server.js:209-287, 1317-1351) -/

/-- The persisted clock `gameTime` (server.js:211). -/
structure GameTime where
  tick : Int
  hour : Int
  day : Int
deriving DecidableEq, Repr

/-- The `time-update` payload built by `getFormattedTimeMessage`. -/
structure TimeMsg where
  hourDisplay : String
  day : Int
  year : Int
  season : String
deriving DecidableEq, Repr

/-- `getFormattedTimeMessage` (server.js:214-273): derives year, season and
a 12-hour display string from the clock.  The switch over the hour is
embedded as the equivalent chain (cases 5-17 all produce the sun icon). -/
def getFormattedTimeMessage (gt : GameTime) : TimeMsg :=
  let year := gt.day / 360 + 1
  let dayOfYear := gt.day % 360
  let season :=
    if 90 ≤ dayOfYear ∧ dayOfYear < 180 then "🍃"
    else if 180 ≤ dayOfYear ∧ dayOfYear < 270 then "🌞"
    else if 270 ≤ dayOfYear then "🍂"
    else "❄️"
  let twelveHourFormat := if gt.hour > 12 then gt.hour - 12 else gt.hour
  let timeDisplay :=
    if gt.hour == 21 || gt.hour == 22 || gt.hour == 23 || gt.hour == 0 ||
        gt.hour == 1 || gt.hour == 2 || gt.hour == 3 || gt.hour == 4 then
      "🌛 " ++ toString twelveHourFormat ++ ":00"
    else if 5 ≤ gt.hour ∧ gt.hour ≤ 17 then
      "🌞 " ++ toString twelveHourFormat ++ ":00"
    else if gt.hour == 18 || gt.hour == 19 || gt.hour == 20 then
      "🌛 " ++ toString twelveHourFormat ++ ":00"
    else ""
  let timeDisplay := timeDisplay ++ (if gt.hour ≥ 12 then " PM" else " AM")
  { hourDisplay := timeDisplay, day := gt.day, year := year, season := season }

/-- The timekeeping section of the 1 Hz scheduler (server.js:1317-1351):
increment the tick; on each 60th tick increment the hour (rolling the day
over and resetting the hour when it reaches a multiple of 24), broadcast
one `time-update` to all connections and persist the clock to disk.
Returns the new clock, the emitted time-update broadcasts, and whether the
clock was persisted this tick. -/
def tickStep (gt : GameTime) : GameTime × List TimeMsg × Bool :=
  let t := gt.tick + 1
  if t % 60 == 0 then
    let h := gt.hour + 1
    let gt2 := if h % 24 == 0 then { tick := t, hour := 0, day := gt.day + 1 }
               else { tick := t, hour := h, day := gt.day }
    (gt2, [getFormattedTimeMessage gt2], true)
  else
    ({ gt with tick := t }, [], false)

/-- C6: every tick increments the tick counter; off the 60-tick boundary
nothing is broadcast or persisted; and from a consistent clock
(`hour = (tick/60) mod 24`, nonnegative tick), when the tick count reaches
a multiple of 60×24 the day increments exactly once, the hour resets to 0,
the clock is persisted, and a single `time-update` reflecting the new day
and hour 0 is broadcast to all connections. -/
theorem tick_rollover_spec :
    (∀ gt : GameTime, (tickStep gt).1.tick = gt.tick + 1)
    ∧ (∀ gt : GameTime, (gt.tick + 1) % 60 ≠ 0 →
        tickStep gt = ({ gt with tick := gt.tick + 1 }, [], false))
    ∧ (∀ gt : GameTime, 0 ≤ gt.tick → gt.hour = gt.tick / 60 % 24 →
        (gt.tick + 1) % 1440 = 0 →
        tickStep gt =
          ({ tick := gt.tick + 1, hour := 0, day := gt.day + 1 },
           [getFormattedTimeMessage
              { tick := gt.tick + 1, hour := 0, day := gt.day + 1 }],
           true)
        ∧ (getFormattedTimeMessage
            { tick := gt.tick + 1, hour := 0, day := gt.day + 1 }).day = gt.day + 1
        ∧ (getFormattedTimeMessage
            { tick := gt.tick + 1, hour := 0, day := gt.day + 1 }).hourDisplay =
              "🌛 0:00 AM") := by
  refine ⟨?_, ?_, ?_⟩
  · intro gt
    by_cases h : (gt.tick + 1) % 60 = 0
    · by_cases h24 : (gt.hour + 1) % 24 = 0 <;> simp [tickStep, h, h24]
    · simp [tickStep, h]
  · intro gt h
    simp [tickStep, h]
  · intro gt h0 hcons h1440
    have h60 : (gt.tick + 1) % 60 = 0 := by omega
    have h24 : (gt.hour + 1) % 24 = 0 := by
      rw [hcons]; omega
    refine ⟨by simp [tickStep, h60, h24], rfl, ?_⟩
    simp only [getFormattedTimeMessage]
    norm_num
    decide

/-- Witness for `tick_rollover_spec`: the rollover at tick 1440. -/
theorem tick_rollover_witness :
    tickStep { tick := 1439, hour := 23, day := 6 } =
      ({ tick := 1440, hour := 0, day := 7 },
       [getFormattedTimeMessage { tick := 1440, hour := 0, day := 7 }],
       true) := by
  exact (tick_rollover_spec.2.2 { tick := 1439, hour := 23, day := 6 }
    (by norm_num) (by norm_num) (by norm_num)).1

/-! ## Rooms, tiles and the privileged edit operations
(server.js:107-207, 1014-1233)

JSON values are modelled with typed fields: a field that may be absent
(or, where noted, present with a non-number/non-string value, which the
code treats the same way) is an `Option`. -/

/-- A tile exit target `{roomId, x, y}`. -/
structure TileExitDef where
  roomId : Int
  x : Int
  y : Int
deriving DecidableEq, Repr

/-- One tile of a room grid.  `tileExits` is kept as the raw list of
`direction ↦ exit` entries (`Object.entries` order); an entry whose exit
value is not an object of integers is modelled as `none`. -/
structure Tile where
  terrain : Option String
  layers : Option (List String)
  properties : Option String
  tileExits : Option (List (String × Option TileExitDef))
deriving DecidableEq, Repr

/-- A long-range teleport exit of a room (`from {x,y}` → `to {roomId,x,y}`). -/
structure RoomExit where
  fromX : Int
  fromY : Int
  toRoomId : Int
  toX : Int
  toY : Int
deriving DecidableEq, Repr

/-- An NPC placement in a room file's `npcs` array. -/
structure NpcDef where
  typeId : String
  x : Int
  y : Int
deriving DecidableEq, Repr

/-- A room file's JSON content. -/
structure Room where
  id : Option Int
  width : Int
  height : Int
  tiles : List (List Tile)
  exits : List RoomExit
  background : Option String
  spawns : Option (List SpawnDef)
  npcs : Option (List NpcDef)
deriving DecidableEq, Repr

/-- A zone entry of the world manifest. -/
structure ZoneDef where
  name : String
  path : String
deriving DecidableEq, Repr

/-- A connection's entry in the `positions` map (server.js:807-820).
`roomX`/`roomY` are copied from fields `initialPos` never has, hence
always `undefined`. -/
structure PlayerPos where
  name : String
  x : Int
  y : Int
  roomX : Option Int
  roomY : Option Int
  roomId : Int
  privilege : Int
  color : String
  inventory : List ObjInstance
  salt : Option String
  hash : Option String
  zone : String
deriving DecidableEq, Repr

/-- Characters accepted by the terrain regex `^[a-zA-Z0-9_-]+$`
(server.js:129). -/
def isTerrainChar (c : Char) : Bool :=
  ('a' ≤ c && c ≤ 'z') || ('A' ≤ c && c ≤ 'Z') || ('0' ≤ c && c ≤ '9') ||
  c == '_' || c == '-'

/-- `validateEditRequest` (server.js:112-134): `x`/`y` are `none` when the
submitted value is not an integer, `terrain` is `none` when absent.
Returns `none` when valid, or the error message.  An empty terrain string
is falsy in JS, so (as in the source) it skips the regex check. -/
def validateEditRequest (x y : Option Int) (terrain : Option String)
    (roomJson : Room) : Option String :=
  match x, y with
  | some xv, some yv =>
    if xv < 0 || yv < 0 then some "Coordinates must be non-negative"
    else
      match roomJson.tiles[yv.toNat]? with
      | none => some "Coordinates out of room bounds"
      | some row =>
        match row[xv.toNat]? with
        | none => some "Coordinates out of room bounds"
        | some _ =>
          match terrain with
          | some t =>
            if t != "" && !(t.toList.all isTerrainChar) then
              some "Invalid terrain value"
            else none
          | none => none
  | _, _ => some "Coordinates must be integers"

/-- `validateResizeRequest` (server.js:139-153); `none` dimensions stand
for non-integer submissions. -/
def validateResizeRequest (width height : Option Int) : Option String :=
  match width, height with
  | some w, some h =>
    if w < 1 || h < 1 then some "Dimensions must be at least 1x1"
    else if w > 100 || h > 100 then some "Dimensions too large (max 100x100)"
    else none
  | _, _ => some "Dimensions must be integers"

/-- `validateRoomId` (server.js:158-172): the argument is the `parseInt`
result (`none` for NaN).  The path-traversal re-check on the decimal
rendering of a nonnegative integer can never fire and is omitted. -/
def validateRoomId : Option Int → Except String Int
  | none => Except.error "Invalid room ID"
  | some parsed =>
    if parsed < 0 then Except.error "Invalid room ID" else Except.ok parsed

/-- The entry loop of `validateTileExits` (server.js:188-204).  A non-object
exit value and an exit with non-integer coordinates are both modelled by
`none` (the source reports them with two distinct messages; this model
uses the first). -/
def validateExitEntries : List (String × Option TileExitDef) → Option String
  | [] => none
  | (dir, ex) :: rest =>
    if !(dir == "up" || dir == "down" || dir == "left" || dir == "right") then
      some ("Invalid exit direction: " ++ dir)
    else
      match ex with
      | none => some "Exit must be an object"
      | some e =>
        if e.roomId < 0 || e.x < 0 || e.y < 0 then
          some "Exit coordinates must be non-negative"
        else validateExitEntries rest

/-- `validateTileExits` (server.js:177-207): `none` is `undefined`,
`some none` is `null` (delete), both valid. -/
def validateTileExits :
    Option (Option (List (String × Option TileExitDef))) → Option String
  | none => none
  | some none => none
  | some (some entries) => validateExitEntries entries

/-- Payload of an `edit-tile` request. -/
structure EditTileMsg where
  roomId : Option Int
  zoneId : Option Nat
  x : Option Int
  y : Option Int
  terrain : Option String
deriving DecidableEq, Repr

/-- Payload of an `edit-tile-exits` request. -/
structure EditTileExitsMsg where
  roomId : Option Int
  zoneId : Option Nat
  x : Option Int
  y : Option Int
  terrain : Option String
  tileExits : Option (Option (List (String × Option TileExitDef)))
deriving DecidableEq, Repr

/-- Payload of a `resize-room` request. -/
structure ResizeRoomMsg where
  roomId : Option Int
  zoneId : Option Nat
  width : Option Int
  height : Option Int
deriving DecidableEq, Repr

/-- Messages an edit handler broadcasts to all connections
(server.js:1062-1072, 1134-1144, 1222-1232). -/
inductive EditBroadcast where
  | roomUpdated (roomId : Int)
  | roomResized (roomId width height : Int)
deriving DecidableEq, Repr

/-- Result of an edit handler: what (if anything) was written to the room
file, the error envelope sent to the requesting connection, and the
broadcasts to all clients. -/
structure EditResult where
  written : Option Room
  errReply : Option String
  broadcastAll : List EditBroadcast
deriving DecidableEq, Repr

/-- The `edit-tile` handler (server.js:1014-1072).  `player` is the
caller's `positions` entry, `file` the content the room-file read returns
(`none` = read/parse failure), `writeOk` whether `safeFileWrite`
succeeds. -/
def handleEditTile (player : Option PlayerPos) (msg : EditTileMsg)
    (zones : List ZoneDef) (file : Option Room) (writeOk : Bool) : EditResult :=
  match player with
  | none => { written := none, errReply := some "Insufficient privileges",
              broadcastAll := [] }
  | some p =>
    if p.privilege < 10 then
      { written := none, errReply := some "Insufficient privileges",
        broadcastAll := [] }
    else
      match validateRoomId msg.roomId with
      | Except.error e => { written := none, errReply := some e, broadcastAll := [] }
      | Except.ok roomId =>
        match zones[msg.zoneId.getD 0]? with
        | none => { written := none, errReply := some "Unknown zone",
                    broadcastAll := [] }
        | some _ =>
          match file with
          | none => { written := none, errReply := some "Failed to load room data",
                      broadcastAll := [] }
          | some roomJson =>
            match validateEditRequest msg.x msg.y msg.terrain roomJson with
            | some e => { written := none, errReply := some e, broadcastAll := [] }
            | none =>
              let roomJson' := { roomJson with
                tiles := updAt (msg.y.getD 0).toNat
                  (updAt (msg.x.getD 0).toNat
                    (fun tile => { tile with terrain := msg.terrain }))
                  roomJson.tiles }
              if writeOk then
                { written := some roomJson', errReply := none,
                  broadcastAll := [EditBroadcast.roomUpdated roomId] }
              else
                { written := none, errReply := some "Failed to save room changes",
                  broadcastAll := [] }

/-- The `edit-tile-exits` handler (server.js:1073-1144).  Note the source
validates the exit structure *before* the zone lookup and file read.
Assigning `undefined` and deleting the property have the same JSON effect,
so both are `Option.join msg.tileExits`. -/
def handleEditTileExits (player : Option PlayerPos) (msg : EditTileExitsMsg)
    (zones : List ZoneDef) (file : Option Room) (writeOk : Bool) : EditResult :=
  match player with
  | none => { written := none, errReply := some "Insufficient privileges",
              broadcastAll := [] }
  | some p =>
    if p.privilege < 10 then
      { written := none, errReply := some "Insufficient privileges",
        broadcastAll := [] }
    else
      match validateRoomId msg.roomId with
      | Except.error e => { written := none, errReply := some e, broadcastAll := [] }
      | Except.ok roomId =>
        match validateTileExits msg.tileExits with
        | some e => { written := none, errReply := some e, broadcastAll := [] }
        | none =>
          match zones[msg.zoneId.getD 0]? with
          | none => { written := none, errReply := some "Unknown zone",
                      broadcastAll := [] }
          | some _ =>
            match file with
            | none => { written := none,
                        errReply := some "Failed to load room data",
                        broadcastAll := [] }
            | some roomJson =>
              match validateEditRequest msg.x msg.y msg.terrain roomJson with
              | some e => { written := none, errReply := some e, broadcastAll := [] }
              | none =>
                let roomJson' := { roomJson with
                  tiles := updAt (msg.y.getD 0).toNat
                    (updAt (msg.x.getD 0).toNat
                      (fun tile => { tile with tileExits := Option.join msg.tileExits }))
                    roomJson.tiles }
                if writeOk then
                  { written := some roomJson', errReply := none,
                    broadcastAll := [EditBroadcast.roomUpdated roomId] }
                else
                  { written := none, errReply := some "Failed to save tile exits",
                    broadcastAll := [] }

/-- The tile pushed into grown rows/columns on resize (server.js:1194). -/
def voidTile : Tile :=
  { terrain := some "void", layers := none, properties := none, tileExits := some [] }

/-- Row resize (server.js:1190-1199): grow pads with `voidTile` up to the
difference between the *metadata* widths; shrink truncates. -/
def resizeRow (oldW newW : Int) (row : List Tile) : List Tile :=
  if newW > oldW then row ++ List.replicate (newW - oldW).toNat voidTile
  else if newW < oldW then row.take newW.toNat
  else row

/-- The grid-and-metadata part of `resize-room` (server.js:1187-1214). -/
def resizeRoomTiles (roomJson : Room) (newW newH : Int) : Room :=
  let oldW := roomJson.width
  let oldH := roomJson.height
  let tiles1 := roomJson.tiles.map (resizeRow oldW newW)
  let tiles2 :=
    if newH > oldH then
      tiles1 ++ List.replicate (newH - oldH).toNat (List.replicate newW.toNat voidTile)
    else if newH < oldH then tiles1.take newH.toNat
    else tiles1
  { roomJson with width := newW, height := newH, tiles := tiles2 }

/-- The `resize-room` handler (server.js:1147-1233). -/
def handleResizeRoom (player : Option PlayerPos) (msg : ResizeRoomMsg)
    (zones : List ZoneDef) (file : Option Room) (writeOk : Bool) : EditResult :=
  match player with
  | none => { written := none, errReply := some "Insufficient privileges",
              broadcastAll := [] }
  | some p =>
    if p.privilege < 10 then
      { written := none, errReply := some "Insufficient privileges",
        broadcastAll := [] }
    else
      match validateRoomId msg.roomId with
      | Except.error e => { written := none, errReply := some e, broadcastAll := [] }
      | Except.ok roomId =>
        match validateResizeRequest msg.width msg.height with
        | some e => { written := none, errReply := some e, broadcastAll := [] }
        | none =>
          match zones[msg.zoneId.getD 0]? with
          | none => { written := none, errReply := some "Unknown zone",
                      broadcastAll := [] }
          | some _ =>
            match file with
            | none => { written := none,
                        errReply := some "Failed to load room data",
                        broadcastAll := [] }
            | some roomJson =>
              let newW := msg.width.getD 0
              let newH := msg.height.getD 0
              let roomJson' := resizeRoomTiles roomJson newW newH
              if writeOk then
                { written := some roomJson', errReply := none,
                  broadcastAll := [EditBroadcast.roomResized roomId newW newH] }
              else
                { written := none, errReply := some "Failed to save room resize",
                  broadcastAll := [] }

/-! ### Lemmas about `updAt`, and the edit theorems -/

theorem updAt_length {α : Type} (f : α → α) :
    ∀ (l : List α) (n : Nat), (updAt n f l).length = l.length := by
  intro l
  induction l with
  | nil => intro n; cases n <;> rfl
  | cons x xs ih =>
    intro n
    cases n with
    | zero => rfl
    | succ m => simp [updAt, ih m]

theorem updAt_get_eq {α : Type} (f : α → α) :
    ∀ (l : List α) (n : Nat), (updAt n f l)[n]? = (l[n]?).map f := by
  intro l
  induction l with
  | nil => intro n; cases n <;> rfl
  | cons x xs ih =>
    intro n
    cases n with
    | zero => simp [updAt]
    | succ m => simpa [updAt] using ih m

theorem updAt_get_ne {α : Type} (f : α → α) :
    ∀ (l : List α) (n m : Nat), m ≠ n → (updAt n f l)[m]? = l[m]? := by
  intro l
  induction l with
  | nil => intro n m _; cases n <;> rfl
  | cons x xs ih =>
    intro n m hne
    cases n with
    | zero =>
      cases m with
      | zero => exact absurd rfl hne
      | succ k => simp [updAt]
    | succ n' =>
      cases m with
      | zero => simp [updAt]
      | succ k => simpa [updAt] using ih n' k (fun h => hne (by rw [h]))

/-- C5: for each of `edit-tile`, `edit-tile-exits` and `resize-room`, any
privilege failure (no registered caller, or caller privilege < 10) or
validation failure (bad roomId, malformed exits, out-of-range dimensions,
unknown zone, unreadable room file, non-integer or out-of-bounds
coordinates, malformed terrain) sends an error envelope to the requesting
connection only, writes nothing to the room file, and broadcasts nothing
to other connections. -/
theorem edit_fail_closed :
    (∀ player msg zones file writeOk,
      (player = none ∨ (∃ p, player = some p ∧ p.privilege < 10) ∨
        (∃ e, validateRoomId msg.roomId = Except.error e) ∨
        zones[msg.zoneId.getD 0]? = none ∨ file = none ∨
        (∃ r e, file = some r ∧
          validateEditRequest msg.x msg.y msg.terrain r = some e)) →
      (handleEditTile player msg zones file writeOk).written = none ∧
      (handleEditTile player msg zones file writeOk).broadcastAll = [] ∧
      ((handleEditTile player msg zones file writeOk).errReply).isSome = true)
    ∧ (∀ player msg zones file writeOk,
      (player = none ∨ (∃ p, player = some p ∧ p.privilege < 10) ∨
        (∃ e, validateRoomId msg.roomId = Except.error e) ∨
        (∃ e, validateTileExits msg.tileExits = some e) ∨
        zones[msg.zoneId.getD 0]? = none ∨ file = none ∨
        (∃ r e, file = some r ∧
          validateEditRequest msg.x msg.y msg.terrain r = some e)) →
      (handleEditTileExits player msg zones file writeOk).written = none ∧
      (handleEditTileExits player msg zones file writeOk).broadcastAll = [] ∧
      ((handleEditTileExits player msg zones file writeOk).errReply).isSome = true)
    ∧ (∀ player msg zones file writeOk,
      (player = none ∨ (∃ p, player = some p ∧ p.privilege < 10) ∨
        (∃ e, validateRoomId msg.roomId = Except.error e) ∨
        (∃ e, validateResizeRequest msg.width msg.height = some e) ∨
        zones[msg.zoneId.getD 0]? = none ∨ file = none) →
      (handleResizeRoom player msg zones file writeOk).written = none ∧
      (handleResizeRoom player msg zones file writeOk).broadcastAll = [] ∧
      ((handleResizeRoom player msg zones file writeOk).errReply).isSome = true) := by
  refine ⟨?_, ?_, ?_⟩
  · intro player msg zones file writeOk h
    cases player with
    | none => simp [handleEditTile]
    | some p =>
      by_cases hpriv : p.privilege < 10
      · simp [handleEditTile, hpriv]
      · cases hrid : validateRoomId msg.roomId with
        | error e => simp [handleEditTile, hpriv, hrid]
        | ok rid =>
          cases hz : zones[msg.zoneId.getD 0]? with
          | none => simp [handleEditTile, hpriv, hrid, hz]
          | some z =>
            cases file with
            | none => simp [handleEditTile, hpriv, hrid, hz]
            | some r =>
              cases hv : validateEditRequest msg.x msg.y msg.terrain r with
              | some e => simp [handleEditTile, hpriv, hrid, hz, hv]
              | none =>
                cases writeOk with
                | false => simp [handleEditTile, hpriv, hrid, hz, hv]
                | true =>
                  exfalso
                  rcases h with h | ⟨p', hp', hl⟩ | ⟨e, he⟩ | hz' | hf' | ⟨r', e, hr', hv'⟩
                  · exact Option.noConfusion h
                  · cases hp'; exact hpriv hl
                  · rw [hrid] at he; exact Except.noConfusion he
                  · rw [hz'] at hz; exact Option.noConfusion hz
                  · exact Option.noConfusion hf'
                  · cases hr'; rw [hv] at hv'; exact Option.noConfusion hv'
  · intro player msg zones file writeOk h
    cases player with
    | none => simp [handleEditTileExits]
    | some p =>
      by_cases hpriv : p.privilege < 10
      · simp [handleEditTileExits, hpriv]
      · cases hrid : validateRoomId msg.roomId with
        | error e => simp [handleEditTileExits, hpriv, hrid]
        | ok rid =>
          cases hex : validateTileExits msg.tileExits with
          | some e => simp [handleEditTileExits, hpriv, hrid, hex]
          | none =>
            cases hz : zones[msg.zoneId.getD 0]? with
            | none => simp [handleEditTileExits, hpriv, hrid, hex, hz]
            | some z =>
              cases file with
              | none => simp [handleEditTileExits, hpriv, hrid, hex, hz]
              | some r =>
                cases hv : validateEditRequest msg.x msg.y msg.terrain r with
                | some e => simp [handleEditTileExits, hpriv, hrid, hex, hz, hv]
                | none =>
                  cases writeOk with
                  | false => simp [handleEditTileExits, hpriv, hrid, hex, hz, hv]
                  | true =>
                    exfalso
                    rcases h with
                      h | ⟨p', hp', hl⟩ | ⟨e, he⟩ | ⟨e, he⟩ | hz' | hf' |
                      ⟨r', e, hr', hv'⟩
                    · exact Option.noConfusion h
                    · cases hp'; exact hpriv hl
                    · rw [hrid] at he; exact Except.noConfusion he
                    · rw [hex] at he; exact Option.noConfusion he
                    · rw [hz'] at hz; exact Option.noConfusion hz
                    · exact Option.noConfusion hf'
                    · cases hr'; rw [hv] at hv'; exact Option.noConfusion hv'
  · intro player msg zones file writeOk h
    cases player with
    | none => simp [handleResizeRoom]
    | some p =>
      by_cases hpriv : p.privilege < 10
      · simp [handleResizeRoom, hpriv]
      · cases hrid : validateRoomId msg.roomId with
        | error e => simp [handleResizeRoom, hpriv, hrid]
        | ok rid =>
          cases hres : validateResizeRequest msg.width msg.height with
          | some e => simp [handleResizeRoom, hpriv, hrid, hres]
          | none =>
            cases hz : zones[msg.zoneId.getD 0]? with
            | none => simp [handleResizeRoom, hpriv, hrid, hres, hz]
            | some z =>
              cases file with
              | none => simp [handleResizeRoom, hpriv, hrid, hres, hz]
              | some r =>
                cases writeOk with
                | false => simp [handleResizeRoom, hpriv, hrid, hres, hz]
                | true =>
                  exfalso
                  rcases h with h | ⟨p', hp', hl⟩ | ⟨e, he⟩ | ⟨e, he⟩ | hz' | hf'
                  · exact Option.noConfusion h
                  · cases hp'; exact hpriv hl
                  · rw [hrid] at he; exact Except.noConfusion he
                  · rw [hres] at he; exact Option.noConfusion he
                  · rw [hz'] at hz; exact Option.noConfusion hz
                  · exact Option.noConfusion hf'

/-- Witness for `edit_fail_closed`: an unregistered caller's `edit-tile`
fails closed. -/
theorem edit_fail_closed_witness :
    (handleEditTile none
        { roomId := some 0, zoneId := none, x := some 0, y := some 0,
          terrain := some "grass" } [] none false).written = none ∧
    (handleEditTile none
        { roomId := some 0, zoneId := none, x := some 0, y := some 0,
          terrain := some "grass" } [] none false).broadcastAll = [] ∧
    ((handleEditTile none
        { roomId := some 0, zoneId := none, x := some 0, y := some 0,
          terrain := some "grass" } [] none false).errReply).isSome = true :=
  edit_fail_closed.1 none
    { roomId := some 0, zoneId := none, x := some 0, y := some 0,
      terrain := some "grass" } [] none false (Or.inl rfl)

/-- Success characterization of `handleEditTile`: with privilege, valid
inputs, a readable file and a successful write, the handler writes the
room with exactly the addressed tile's terrain replaced. -/
theorem editTile_success (p : PlayerPos) (msg : EditTileMsg) (zones : List ZoneDef)
    (r : Room) (rid : Int) (z : ZoneDef)
    (hpriv : ¬ p.privilege < 10)
    (hrid : validateRoomId msg.roomId = Except.ok rid)
    (hz : zones[msg.zoneId.getD 0]? = some z)
    (hv : validateEditRequest msg.x msg.y msg.terrain r = none) :
    handleEditTile (some p) msg zones (some r) true =
      { written := some { r with
          tiles := updAt (msg.y.getD 0).toNat
            (updAt (msg.x.getD 0).toNat
              (fun tile => { tile with terrain := msg.terrain })) r.tiles },
        errReply := none,
        broadcastAll := [EditBroadcast.roomUpdated rid] } := by
  simp [handleEditTile, hpriv, hrid, hz, hv]

/-- C7: for a successful `edit-tile` on in-bounds integer coordinates
`(x, y)` with a valid terrain string `t`, the room written to disk (and
re-read from it — file round trips are the identity on the JSON model)
has terrain `t` at tile `(x, y)`, every other field of that tile
unchanged, every other tile unchanged, the grid dimensions unchanged, and
every other room attribute unchanged. -/
theorem edit_tile_round_trip (p : PlayerPos) (msg : EditTileMsg)
    (zones : List ZoneDef) (r : Room) (rid : Int) (z : ZoneDef)
    (x y : Int) (row : List Tile) (tile : Tile) (t : String)
    (hpriv : ¬ p.privilege < 10)
    (hrid : validateRoomId msg.roomId = Except.ok rid)
    (hz : zones[msg.zoneId.getD 0]? = some z)
    (hx : msg.x = some x) (hy : msg.y = some y)
    (hx0 : 0 ≤ x) (hy0 : 0 ≤ y)
    (hrow : r.tiles[y.toNat]? = some row)
    (htile : row[x.toNat]? = some tile)
    (ht : msg.terrain = some t) (ht0 : t ≠ "")
    (htc : t.toList.all isTerrainChar = true) :
    ∃ room',
      (handleEditTile (some p) msg zones (some r) true).written = some room'
      ∧ (room'.tiles[y.toNat]?).bind (fun rw => rw[x.toNat]?) =
          some { tile with terrain := some t }
      ∧ (∀ y' : Nat, y' ≠ y.toNat → room'.tiles[y']? = r.tiles[y']?)
      ∧ (∀ x' : Nat, x' ≠ x.toNat →
          (room'.tiles[y.toNat]?).bind (fun rw => rw[x']?) =
          (r.tiles[y.toNat]?).bind (fun rw => rw[x']?))
      ∧ room'.tiles.length = r.tiles.length
      ∧ (∀ i : Nat, (room'.tiles[i]?).map List.length = (r.tiles[i]?).map List.length)
      ∧ room'.id = r.id ∧ room'.width = r.width ∧ room'.height = r.height
      ∧ room'.exits = r.exits ∧ room'.background = r.background
      ∧ room'.spawns = r.spawns ∧ room'.npcs = r.npcs := by
  have hxneg : ¬ x < 0 := not_lt.mpr hx0
  have hyneg : ¬ y < 0 := not_lt.mpr hy0
  have hv : validateEditRequest msg.x msg.y msg.terrain r = none := by
    rw [hx, hy, ht]
    simp [validateEditRequest, hxneg, hyneg, hrow, htile, htc]
    exact fun _ => List.all_eq_true.mp htc
  have hkey : (handleEditTile (some p) msg zones (some r) true).written =
      some { r with
        tiles := updAt y.toNat
          (updAt x.toNat (fun tile => { tile with terrain := some t })) r.tiles } := by
    rw [editTile_success p msg zones r rid z hpriv hrid hz hv, hx, hy, ht]
    rfl
  refine ⟨_, hkey, ?_, ?_, ?_, ?_, ?_, rfl, rfl, rfl, rfl, rfl, rfl, rfl⟩
  · show ((updAt y.toNat
        (updAt x.toNat (fun tl => { tl with terrain := some t })) r.tiles)[y.toNat]?).bind
        (fun rw => rw[x.toNat]?) = some { tile with terrain := some t }
    rw [updAt_get_eq, hrow]
    simp only [Option.map_some', Option.some_bind]
    rw [updAt_get_eq, htile]
    rfl
  · intro y' hy'
    show (updAt y.toNat _ r.tiles)[y']? = r.tiles[y']?
    exact updAt_get_ne _ r.tiles y.toNat y' hy'
  · intro x' hx'
    show ((updAt y.toNat
        (updAt x.toNat (fun tl => { tl with terrain := some t })) r.tiles)[y.toNat]?).bind
        (fun rw => rw[x']?) = (r.tiles[y.toNat]?).bind (fun rw => rw[x']?)
    rw [updAt_get_eq, hrow]
    simp only [Option.map_some', Option.some_bind]
    rw [updAt_get_ne _ row x.toNat x' hx']
  · exact updAt_length _ r.tiles y.toNat
  · intro i
    by_cases hi : i = y.toNat
    · show ((updAt y.toNat _ r.tiles)[i]?).map List.length =
          (r.tiles[i]?).map List.length
      rw [hi, updAt_get_eq, hrow]
      simp [updAt_length]
    · show ((updAt y.toNat _ r.tiles)[i]?).map List.length = _
      rw [updAt_get_ne _ r.tiles y.toNat i hi]

/-- Witness for `edit_tile_round_trip`: editing tile (1,0) of a concrete
2×1 room to "grass". -/
theorem edit_tile_round_trip_witness :
    ((handleEditTile
        (some { name := "ava", x := 0, y := 0, roomX := none, roomY := none,
                roomId := 0, privilege := 10, color := "red", inventory := [],
                salt := some "s", hash := some "h", zone := "0" })
        { roomId := some 1, zoneId := none, x := some 1, y := some 0,
          terrain := some "grass" }
        [{ name := "z", path := "zones/z" }]
        (some { id := some 1, width := 2, height := 1,
                tiles := [[{ terrain := some "dirt", layers := none,
                             properties := none, tileExits := none },
                           { terrain := some "dirt", layers := some ["d"],
                             properties := none, tileExits := none }]],
                exits := [], background := none, spawns := none, npcs := none })
        true).written.bind
      (fun rm => (rm.tiles[(0 : Nat)]?).bind (fun rw => rw[(1 : Nat)]?))) =
      some { terrain := some "grass", layers := some ["d"], properties := none,
             tileExits := none } := by
  obtain ⟨room', hw, hxy, -⟩ := edit_tile_round_trip
    { name := "ava", x := 0, y := 0, roomX := none, roomY := none,
      roomId := 0, privilege := 10, color := "red", inventory := [],
      salt := some "s", hash := some "h", zone := "0" }
    { roomId := some 1, zoneId := none, x := some 1, y := some 0,
      terrain := some "grass" }
    [{ name := "z", path := "zones/z" }]
    { id := some 1, width := 2, height := 1,
      tiles := [[{ terrain := some "dirt", layers := none,
                   properties := none, tileExits := none },
                 { terrain := some "dirt", layers := some ["d"],
                   properties := none, tileExits := none }]],
      exits := [], background := none, spawns := none, npcs := none }
    1 { name := "z", path := "zones/z" } 1 0
    [{ terrain := some "dirt", layers := none, properties := none,
       tileExits := none },
     { terrain := some "dirt", layers := some ["d"], properties := none,
       tileExits := none }]
    { terrain := some "dirt", layers := some ["d"], properties := none,
      tileExits := none }
    "grass" (by norm_num) rfl rfl rfl rfl (by norm_num) (by norm_num)
    rfl rfl rfl (by decide) (by decide)
  rw [hw]
  simpa using hxy

/-! ## Authentication and the init snapshot (server.js:667-861) -/

/-- JavaScript truthiness of a nullable string: `null`/`undefined` and the
empty string are falsy. -/
def optStrTruthy : Option String → Bool
  | none => false
  | some s => s != ""

/-- The fixed color palette (server.js:673). -/
def colors : List String := ["red", "green", "blue", "orange", "purple", "yellow"]

/-- A parsed player record file `players/<name>.json` (server.js:760-784):
each field is `some` only when present with the type the code checks for
(`typeof data.x === 'number'` and so on). -/
structure PlayerRecord where
  x : Option Int
  y : Option Int
  roomId : Option Int
  color : Option String
  privilege : Option Int
  inventory : Option (List ObjInstance)
  salt : Option String
  hash : Option String
deriving DecidableEq, Repr

/-- Result of reading the player file: absent, present but unparsable
(`JSON.parse` throws; the catch at server.js:802 falls through to the
success path with the default `initialPos`), or parsed. -/
inductive RecordRead where
  | absent
  | corrupt
  | ok (data : PlayerRecord)
deriving DecidableEq, Repr

/-- The parsed first message `{name, password, create}` (server.js:736). -/
structure AuthPayload where
  name : String
  password : String
  create : Bool
deriving DecidableEq, Repr

/-- The registries the auth handler touches (server.js:670-674):
`clients` (connection id ↦ socket, modelled as the id list), `nameMap`
and `positions`. -/
structure ServerState where
  nextClientId : Nat
  clients : List Nat
  nameMap : List (Nat × String)
  positions : List (Nat × PlayerPos)
deriving DecidableEq, Repr

/-- The `init` snapshot payload (server.js:823-834); the `world` field is
omitted (static data). -/
structure InitMsg where
  id : Nat
  players : List (Nat × PlayerPos)
  x : Int
  y : Int
  roomId : Int
  privilege : Int
deriving DecidableEq, Repr

/-- Observable actions the auth handler performs on the connection, in
order.  `sendInitNpcs` omits its payload (NPC snapshots are modelled in
the NPC section). -/
inductive AuthEvent where
  | sendErr (msg : String)
  | close
  | writeRecord (name : String)
  | sendInit (m : InitMsg)
  | sendTime
  | sendInitObjects (objs : List ObjInstance)
  | sendInitInventory (objs : List ObjInstance)
  | sendInitNpcs
  | broadcastJoin
deriving DecidableEq, Repr

/-- The success tail of the auth handler (server.js:806-861): register the
position, send the `init` snapshot — with literal `roomId: 0` and
`privilege: 10` (server.js:831-832) — then the time, the room-scoped
object snapshot, the inventory, the NPC snapshot, and a `join` notice to
the other connections. -/
def authSuccess (st1 : ServerState) (id : Nat) (ipos : PlayerPos)
    (objs : List ObjInstance) (preEvents : List AuthEvent) :
    ServerState × List AuthEvent :=
  let st2 := { st1 with positions := (id, ipos) :: st1.positions }
  let initObjects := objs.filter (fun i =>
    i.zone == ipos.zone && i.roomId == ipos.roomId && i.pickedUpBy == none)
  let initInventory := objs.filter (fun i => i.pickedUpBy == some ipos.name)
  (st2, preEvents ++
    [AuthEvent.sendInit {
       id := id, players := st2.positions, x := ipos.x,
       y := ipos.y, roomId := 0, privilege := 10 },
     AuthEvent.sendTime,
     AuthEvent.sendInitObjects initObjects,
     AuthEvent.sendInitInventory initInventory,
     AuthEvent.sendInitNpcs,
     AuthEvent.broadcastJoin])

/-- The default `initialPos` of a fresh connection (server.js:748-756),
before any player-file fields are merged in. -/
def defaultPos (name color zoneKey : String) : PlayerPos :=
  { name := name, x := 400, y := 300, roomX := none, roomY := none,
    roomId := 0, privilege := 0, color := color, inventory := [],
    salt := none, hash := none, zone := zoneKey }

/-- Merging the typed fields of a parsed player record into `initialPos`
(server.js:777-784): each field is copied only when present with the type
the code checks for; salt and hash are copied unconditionally. -/
def mergeRecord (ipos0 : PlayerPos) (data : PlayerRecord) : PlayerPos :=
  { ipos0 with
    x := data.x.getD ipos0.x,
    y := data.y.getD ipos0.y,
    roomId := data.roomId.getD ipos0.roomId,
    color := data.color.getD ipos0.color,
    privilege := data.privilege.getD ipos0.privilege,
    inventory := data.inventory.getD ipos0.inventory,
    salt := data.salt,
    hash := data.hash }

/-- The first-message auth handler (server.js:726-861).  `payload` is the
`JSON.parse` result (`none` = parse failure, closed with no response),
`record` the player-file read, `pbkdf` models `crypto.pbkdf2Sync`,
`newSalt` the random salt draw, `zoneKey` the default zone key, and
`objs` the object instances used for the initial snapshots.  Note the
source allocates the connection id and registers the socket in `clients`
and `nameMap` (server.js:742-745) *before* any authentication check, and
the failure branches return before the close handler that would remove
those entries is installed. -/
def authHandler (st : ServerState) (payload : Option AuthPayload)
    (record : RecordRead) (pbkdf : String → String → String) (newSalt : String)
    (zoneKey : String) (objs : List ObjInstance) :
    ServerState × List AuthEvent :=
  match payload with
  | none => (st, [AuthEvent.close])
  | some pl =>
    if pl.name == "" || pl.password == "" then (st, [AuthEvent.close])
    else
      let id := st.nextClientId
      let color := (colors[id % colors.length]?).getD ""
      let st1 := { st with
        nextClientId := id + 1,
        nameMap := (id, pl.name) :: st.nameMap,
        clients := id :: st.clients }
      let ipos0 : PlayerPos := defaultPos pl.name color zoneKey
      match record with
      | RecordRead.ok data =>
        if !optStrTruthy data.salt || !optStrTruthy data.hash then
          (st1, [AuthEvent.sendErr "Missing password data.", AuthEvent.close])
        else if pl.create then
          (st1, [AuthEvent.sendErr "Character already exists.", AuthEvent.close])
        else if data.hash.getD "" != pbkdf pl.password (data.salt.getD "") then
          (st1, [AuthEvent.sendErr "Incorrect password.", AuthEvent.close])
        else
          authSuccess st1 id (mergeRecord ipos0 data) objs []
      | RecordRead.corrupt => authSuccess st1 id ipos0 objs []
      | RecordRead.absent =>
        let ipos := { ipos0 with
          salt := some newSalt, hash := some (pbkdf pl.password newSalt) }
        if pl.create then
          authSuccess st1 id ipos objs [AuthEvent.writeRecord pl.name]
        else
          (st1, [AuthEvent.sendErr "Character not found.", AuthEvent.close])

/-- `positions.get` on the association-list model. -/
def lookupPos (positions : List (Nat × PlayerPos)) (cid : Nat) :
    Option PlayerPos :=
  (positions.find? (fun e => e.1 == cid)).map (·.2)

/-- The connection ids `broadcastToRoom` (server.js:623-631) sends to:
registered sockets whose position entry matches the zone and room. -/
def broadcastToRoomRecipients (clients : List Nat)
    (positions : List (Nat × PlayerPos)) (zone : String) (roomId : Int) :
    List Nat :=
  clients.filter (fun cid =>
    match lookupPos positions cid with
    | some pos => pos.zone == zone && pos.roomId == roomId
    | none => false)

/-! ### Authentication theorems -/

/-- The player record on file for the C3 counterexample. -/
def cexRecord : PlayerRecord :=
  { x := some 1, y := some 2, roomId := some 3, color := some "red",
    privilege := some 0, inventory := some [], salt := some "salt",
    hash := some "hash" }

/-- C3 counterexample: a `create=true` request for an existing character
fails authentication — the server sends "Character already exists." and
closes — yet connection id 0 has been allocated and the socket remains
registered in the `clients` map and `nameMap` (the failure branch returns
before the close handler that would remove them is installed); only
`positions` stays empty.  This refutes the claim that an authentication
failure "leaves no entry for that connection registered in the
connection/client registry". -/
theorem auth_registration_cex :
    authHandler { nextClientId := 0, clients := [], nameMap := [], positions := [] }
      (some { name := "Ava", password := "pw", create := true })
      (RecordRead.ok cexRecord) (fun p s => p ++ s) "ns" "0" [] =
    ({ nextClientId := 1, clients := [0], nameMap := [(0, "Ava")], positions := [] },
     [AuthEvent.sendErr "Character already exists.", AuthEvent.close]) := by
  rfl

/-- C3 (amended): connection-id allocation and registration in the
`clients`/`nameMap` registries happen for every well-formed auth payload
*before* the authentication checks; every authentication failure (record
exists with create=true, incorrect password, record missing salt/hash, or
no record with create=false) sends the specified error, closes the
connection, and registers no `positions` entry — but the already-made
`clients` and `nameMap` entries are not removed. -/
theorem auth_failure_registration (st : ServerState) (pl : AuthPayload)
    (pbkdf : String → String → String) (newSalt : String)
    (zoneKey : String) (objs : List ObjInstance)
    (hname : pl.name ≠ "") (hpass : pl.password ≠ "") :
    (∀ data, (optStrTruthy data.salt = false ∨ optStrTruthy data.hash = false) →
      authHandler st (some pl) (RecordRead.ok data) pbkdf newSalt zoneKey objs =
        ({ st with
           nextClientId := st.nextClientId + 1,
           nameMap := (st.nextClientId, pl.name) :: st.nameMap,
           clients := st.nextClientId :: st.clients },
         [AuthEvent.sendErr "Missing password data.", AuthEvent.close]))
    ∧ (∀ data, optStrTruthy data.salt = true → optStrTruthy data.hash = true →
      pl.create = true →
      authHandler st (some pl) (RecordRead.ok data) pbkdf newSalt zoneKey objs =
        ({ st with
           nextClientId := st.nextClientId + 1,
           nameMap := (st.nextClientId, pl.name) :: st.nameMap,
           clients := st.nextClientId :: st.clients },
         [AuthEvent.sendErr "Character already exists.", AuthEvent.close]))
    ∧ (∀ data, optStrTruthy data.salt = true → optStrTruthy data.hash = true →
      pl.create = false →
      data.hash.getD "" ≠ pbkdf pl.password (data.salt.getD "") →
      authHandler st (some pl) (RecordRead.ok data) pbkdf newSalt zoneKey objs =
        ({ st with
           nextClientId := st.nextClientId + 1,
           nameMap := (st.nextClientId, pl.name) :: st.nameMap,
           clients := st.nextClientId :: st.clients },
         [AuthEvent.sendErr "Incorrect password.", AuthEvent.close]))
    ∧ (pl.create = false →
      authHandler st (some pl) RecordRead.absent pbkdf newSalt zoneKey objs =
        ({ st with
           nextClientId := st.nextClientId + 1,
           nameMap := (st.nextClientId, pl.name) :: st.nameMap,
           clients := st.nextClientId :: st.clients },
         [AuthEvent.sendErr "Character not found.", AuthEvent.close])) := by
  have hnb : (pl.name == "") = false := beq_eq_false_iff_ne.mpr hname
  have hpb : (pl.password == "") = false := beq_eq_false_iff_ne.mpr hpass
  refine ⟨?_, ?_, ?_, ?_⟩
  · intro data hsf
    rcases hsf with h | h <;> simp [authHandler, hnb, hpb, h]
  · intro data hs hh hc
    simp [authHandler, hnb, hpb, hs, hh, hc]
  · intro data hs hh hc hpw
    have hpwb : (data.hash.getD "" != pbkdf pl.password (data.salt.getD "")) = true :=
      bne_iff_ne.mpr hpw
    simp [authHandler, hnb, hpb, hs, hh, hc, hpwb]
  · intro hc
    simp [authHandler, hnb, hpb, hc]

/-- Witness for `auth_failure_registration`: login to a missing character
with create=false, from a state already holding a connection. -/
theorem auth_failure_registration_witness :
    authHandler {
        nextClientId := 7, clients := [3], nameMap := [(3, "Bo")],
        positions := [] }
      (some { name := "Cy", password := "pw", create := false })
      RecordRead.absent (fun p s => p ++ s) "ns" "0" [] =
    ({
      nextClientId := 8, clients := [7, 3], nameMap := [(7, "Cy"), (3, "Bo")],
      positions := [] },
     [AuthEvent.sendErr "Character not found.", AuthEvent.close]) := by
  exact (auth_failure_registration
    { nextClientId := 7, clients := [3], nameMap := [(3, "Bo")], positions := [] }
    { name := "Cy", password := "pw", create := false }
    (fun p s => p ++ s) "ns" "0" [] (by decide) (by decide)).2.2.2 rfl

/-- C10: on every successful authentication from an existing record the
`init` snapshot always reports `roomId 0` and `privilege 10` (literals at
server.js:831-832) regardless of the record, while the registered
`positions` entry carries the record's actual roomId and privilege; the
room-scoped broadcast recipient test and the `edit-tile` privilege gate
read that entry, so they use the record's actual values. -/
theorem init_snapshot_hardcoded (st : ServerState) (pl : AuthPayload)
    (data : PlayerRecord) (pbkdf : String → String → String) (newSalt : String)
    (zoneKey : String) (objs : List ObjInstance)
    (hname : pl.name ≠ "") (hpass : pl.password ≠ "")
    (hs : optStrTruthy data.salt = true) (hh : optStrTruthy data.hash = true)
    (hc : pl.create = false)
    (hpw : data.hash.getD "" = pbkdf pl.password (data.salt.getD "")) :
    ∃ ipos m rest,
      authHandler st (some pl) (RecordRead.ok data) pbkdf newSalt zoneKey objs =
        ({ st with
           nextClientId := st.nextClientId + 1,
           clients := st.nextClientId :: st.clients,
           nameMap := (st.nextClientId, pl.name) :: st.nameMap,
           positions := (st.nextClientId, ipos) :: st.positions },
         AuthEvent.sendInit m :: rest)
      ∧ m.roomId = 0 ∧ m.privilege = 10
      ∧ m.x = data.x.getD 400 ∧ m.y = data.y.getD 300
      ∧ ipos.roomId = data.roomId.getD 0
      ∧ ipos.privilege = data.privilege.getD 0
      ∧ ipos.zone = zoneKey ∧ ipos.name = pl.name
      ∧ (∀ rid : Int,
          st.nextClientId ∈ broadcastToRoomRecipients
            (st.nextClientId :: st.clients)
            ((st.nextClientId, ipos) :: st.positions) zoneKey rid ↔
          rid = data.roomId.getD 0)
      ∧ (ipos.privilege < 10 →
          ∀ emsg zones file w,
            (handleEditTile (some ipos) emsg zones file w).written = none ∧
            (handleEditTile (some ipos) emsg zones file w).errReply =
              some "Insufficient privileges") := by
  have hnb : (pl.name == "") = false := beq_eq_false_iff_ne.mpr hname
  have hpb : (pl.password == "") = false := beq_eq_false_iff_ne.mpr hpass
  have hpwb : (data.hash.getD "" != pbkdf pl.password (data.salt.getD "")) = false := by
    simp [hpw]
  set ipos := mergeRecord (defaultPos pl.name
    ((colors[st.nextClientId % colors.length]?).getD "") zoneKey) data with hipos
  refine ⟨ipos,
    { id := st.nextClientId, players := (st.nextClientId, ipos) :: st.positions,
      x := ipos.x, y := ipos.y, roomId := 0, privilege := 10 },
    [AuthEvent.sendTime,
     AuthEvent.sendInitObjects (objs.filter (fun i =>
       i.zone == ipos.zone && i.roomId == ipos.roomId && i.pickedUpBy == none)),
     AuthEvent.sendInitInventory (objs.filter (fun i =>
       i.pickedUpBy == some ipos.name)),
     AuthEvent.sendInitNpcs, AuthEvent.broadcastJoin],
    ?_, rfl, rfl, rfl, rfl, rfl, rfl, rfl, rfl, ?_, ?_⟩
  · simp [authHandler, authSuccess, hnb, hpb, hs, hh, hc, hpwb]
  · intro rid
    have hlook : lookupPos ((st.nextClientId, ipos) :: st.positions)
        st.nextClientId = some ipos := by simp [lookupPos]
    have hzone : ipos.zone = zoneKey := by rw [hipos]; simp [mergeRecord, defaultPos]
    have hroomv : ipos.roomId = data.roomId.getD 0 := by
      rw [hipos]; simp [mergeRecord, defaultPos]
    constructor
    · intro hmem
      rw [broadcastToRoomRecipients, List.mem_filter] at hmem
      obtain ⟨-, hcond⟩ := hmem
      simp only [hlook] at hcond
      have h2 := ((Bool.and_eq_true _ _).mp hcond).2
      have h3 : ipos.roomId = rid := beq_iff_eq.mp h2
      rw [← h3]
      exact hroomv
    · intro hrid
      rw [broadcastToRoomRecipients, List.mem_filter]
      refine ⟨List.mem_cons_self _ _, ?_⟩
      simp only [hlook]
      rw [hrid]
      simp [hzone, hroomv]
  · intro hlt emsg zones file w
    constructor <;> simp [handleEditTile, hlt]

/-- The player record for the `init_snapshot_hardcoded` witness: stored
roomId 5 and privilege 3. -/
def wRecord : PlayerRecord :=
  { x := some 40, y := some 30, roomId := some 5, color := some "blue",
    privilege := some 3, inventory := some [], salt := some "s",
    hash := some "pws" }

/-- Witness for `init_snapshot_hardcoded`: the registered position carries
the record's roomId 5 and privilege 3 (while the init payload says 0/10). -/
theorem init_snapshot_witness :
    ((authHandler { nextClientId := 0, clients := [], nameMap := [], positions := [] }
        (some { name := "Ava", password := "pw", create := false })
        (RecordRead.ok wRecord) (fun p s => p ++ s) "ns" "0" []).1.positions.head?).map
      (fun e => (e.2.roomId, e.2.privilege)) = some ((5 : Int), (3 : Int)) := by
  obtain ⟨ipos, m, rest, heq, h0, h10, hx, hy, hroom, hpriv, hz, hn, hb, hp⟩ :=
    init_snapshot_hardcoded
      { nextClientId := 0, clients := [], nameMap := [], positions := [] }
      { name := "Ava", password := "pw", create := false }
      wRecord (fun p s => p ++ s) "ns" "0" []
      (by decide) (by decide) (by decide) (by decide) rfl rfl
  have hpos := congrArg (fun r => (r.1.positions.head?).map
    (fun e => (e.2.roomId, e.2.privilege))) heq
  simp only at hpos
  rw [hpos]
  simp [hroom, hpriv, wRecord]

/-! ## The pathfinder (server.js:582-620) -/

/-- A tile coordinate; `Int` because neighbor candidates may be negative
before the bounds check. -/
abbrev Coord := Int × Int

/-- The neighbor expansion order `[+x, -x, +y, -y]` (server.js:594-599). -/
def dirs : List Coord := [(1, 0), (-1, 0), (0, 1), (0, -1)]

/-- `tiles[y][x].terrain`; `none` when the indices miss the grid (there the
source would throw; unreachable on rectangular grids after the bounds
check). -/
def terrainAt (tiles : List (List Tile)) (x y : Int) : Option (Option String) :=
  match tiles[y.toNat]? with
  | none => none
  | some row =>
    match row[x.toNat]? with
    | none => none
    | some tile => some tile.terrain

/-- One neighbor-direction step of the BFS loop body (server.js:607-617):
bounds check, visited check, terrain check; on success mark the neighbor
visited and enqueue the extended path. -/
def bfsExpand (tiles : List (List Tile)) (rows cols : Nat) (path : List Coord)
    (x y : Int) (acc : Finset Coord × List (List Coord)) (d : Coord) :
    Finset Coord × List (List Coord) :=
  let nx := x + d.1
  let ny := y + d.2
  if nx < 0 ∨ ny < 0 ∨ (cols : Int) ≤ nx ∨ (rows : Int) ≤ ny then acc
  else if (nx, ny) ∈ acc.1 then acc
  else
    match terrainAt tiles nx ny with
    | none => acc
    | some t =>
      if t = some "void" then acc
      else (insert (nx, ny) acc.1, acc.2 ++ [path ++ [(nx, ny)]])

/-- The BFS loop (server.js:603-619).  The `fuel` argument only serves
Lean's termination checking; `findPath` passes enough fuel for the loop
to run to completion (each iteration pops one queue entry, and at most
`rows·cols` entries are ever enqueued beyond the initial one because
every enqueue adds a fresh in-bounds coordinate to `visited`). -/
def findPathAux (tiles : List (List Tile)) (endp : Coord) (rows cols : Nat) :
    Nat → Finset Coord → List (List Coord) → Option (List Coord)
  | 0, _, _ => none
  | fuel + 1, visited, queue =>
    match queue with
    | [] => none
    | path :: rest =>
      match path.getLast? with
      | none => none
      | some c =>
        if c = endp then some path
        else
          let acc := dirs.foldl (bfsExpand tiles rows cols path c.1 c.2)
            (visited, rest)
          findPathAux tiles endp rows cols fuel acc.1 acc.2

/-- `findPath` (server.js:590-620): breadth-first search from `start` to
`endp`; `rows = tiles.length`, `cols = tiles[0].length`.  (The source
dereferences `tiles[0]` unconditionally and would throw on an empty grid;
the model treats the empty grid as no-path.) -/
def findPath (start endp : Coord) (tiles : List (List Tile)) :
    Option (List Coord) :=
  let rows := tiles.length
  let cols := (tiles.headD []).length
  findPathAux tiles endp rows cols (rows * cols + 1) {start} [[start]]

/-! ## NPCs: boot normalization, roam decisions and movement timers
(server.js:24, 74-105, 549-580, 1369-1430) -/

/-- A template's roam policy.  The source divides by `rate` after a
`|| 1` falsy guard; rates are modelled as integers (the claims do not
depend on fractional rates). -/
structure NpcRoam where
  roamType : String
  frequency : Int
  minDuration : Int
  maxDuration : Int
  rate : Option Int
deriving DecidableEq, Repr

/-- A live NPC instance after boot normalization (behavior callbacks not
modelled). -/
structure Npc where
  instanceId : String
  typeId : String
  name : String
  sprite : String
  zone : String
  roomId : Int
  x : Int
  y : Int
  roam : Option NpcRoam
  lastRoamTick : Int
  movePath : Option (List Coord)
  moveStartTick : Int
  moveDuration : Int
deriving DecidableEq, Repr

/-- An NPC instance as loaded from `npcs-state.json`: the movement fields
may be absent.  For `movePath` the outer `Option` is field presence
(`'movePath' in npc`), the inner one the JSON value. -/
structure RawNpc where
  instanceId : String
  typeId : String
  name : String
  sprite : String
  zone : String
  roomId : Int
  x : Int
  y : Int
  roam : Option NpcRoam
  lastRoamTick : Int
  movePath : Option (Option (List Coord))
  moveStartTick : Option Int
  moveDuration : Option Int
deriving DecidableEq, Repr

/-- Boot normalization of an NPC instance (server.js:550-557): set
`movePath = null`, `moveStartTick = 0`, `moveDuration = 0` when the field
is absent; a present field keeps its value. -/
def ensureMoveFields (raw : RawNpc) : Npc :=
  { instanceId := raw.instanceId, typeId := raw.typeId, name := raw.name,
    sprite := raw.sprite, zone := raw.zone, roomId := raw.roomId,
    x := raw.x, y := raw.y, roam := raw.roam,
    lastRoamTick := raw.lastRoamTick,
    movePath := raw.movePath.getD none,
    moveStartTick := raw.moveStartTick.getD 0,
    moveDuration := raw.moveDuration.getD 0 }

/-- A pending NPC movement-completion timer: fires after `delay` ms and
snaps the NPC to `(targetX, targetY)`, the path's final tile
(server.js:1414-1426). -/
structure PendingTimer where
  targetX : Int
  targetY : Int
  delay : Int
deriving DecidableEq, Repr

/-- `clearNpcMovementTimer` (server.js:89-95): drop the timer keyed by the
instance id, if any. -/
def clearNpcMovementTimerFn (instanceId : String)
    (timers : List (String × PendingTimer)) : List (String × PendingTimer) :=
  timers.filter (fun e => e.1 != instanceId)

/-- `startNpcMovementTimer` (server.js:74-84): cancel any existing timer
for this instance, then register the new one (the callback is reified as
the `PendingTimer` data). -/
def startNpcMovementTimer (instanceId : String) (t : PendingTimer)
    (timers : List (String × PendingTimer)) : List (String × PendingTimer) :=
  clearNpcMovementTimerFn instanceId timers ++ [(instanceId, t)]

/-- The `npc-start-path` broadcast of an accepted roam decision
(server.js:1404-1409). -/
structure StartPathBroadcast where
  zone : String
  roomId : Int
  instanceId : String
  path : List Coord
  segmentDuration : Int
deriving DecidableEq, Repr

/-- ms per tile for NPCs at rate=1 (server.js:24). -/
def NPC_BASE_TILE_DURATION : Int := 320

/-- One NPC's roam decision in the tick loop (server.js:1370-1430).
`randRoll` is the `Math.random() * 100` draw, `target` the
`pickRandomTile` draw, `roomTiles` the grid read from the room file.
Returns the NPC record (which this code never mutates — in particular
`movePath` is never assigned), the updated timer registry, and the
broadcasts. -/
def npcRoamStep (npc : Npc) (randRoll : Int) (target : Coord)
    (roomTiles : List (List Tile)) (timers : List (String × PendingTimer)) :
    Npc × List (String × PendingTimer) × List StartPathBroadcast :=
  match npc.roam with
  | none => (npc, timers, [])
  | some roam =>
    if roam.roamType != "random" then (npc, timers, [])
    else if npc.movePath.isSome then (npc, timers, [])
    else if randRoll < roam.frequency then
      match findPath (npc.x, npc.y) target roomTiles with
      | some path =>
        if 1 < path.length then
          let pathLen : Int := (path.length : Int) - 1
          let rate : Int := match roam.rate with
            | some r => if r != 0 then r else 1
            | none => 1
          if pathLen ≥ roam.minDuration ∧ pathLen ≤ roam.maxDuration then
            let segmentDuration := NPC_BASE_TILE_DURATION / rate
            let totalMs := pathLen * segmentDuration
            let lastTile := path.getLast?.getD (npc.x, npc.y)
            (npc,
             startNpcMovementTimer npc.instanceId
               { targetX := lastTile.1, targetY := lastTile.2, delay := totalMs }
               timers,
             [{ zone := npc.zone, roomId := npc.roomId,
                instanceId := npc.instanceId, path := path,
                segmentDuration := segmentDuration }])
          else (npc, timers, [])
        else (npc, timers, [])
      | none => (npc, timers, [])
    else (npc, timers, [])

/-- The movement-completion callback (server.js:78-80, 1414-1426): the
timer-registry entry is removed, the authoritative position snaps to the
path's final tile and an `npc-move` is broadcast to the room; `movePath`
is not touched.  The third component is the broadcast target. -/
def npcTimerComplete (npc : Npc) (t : PendingTimer)
    (timers : List (String × PendingTimer)) :
    Npc × List (String × PendingTimer) × List (String × Int) :=
  ({ npc with x := t.targetX, y := t.targetY },
   timers.filter (fun e => e.1 != npc.instanceId),
   [(npc.zone, npc.roomId)])

/-- C9: `movePath` is null after boot for every instance whose persisted
state lacks the field or holds null (and this server only ever persists
null); no server operation assigns it — the roam decision returns the NPC
record unchanged and the completion callback only moves x/y — so the roam
guard `if (npc.movePath) return` never suppresses a roam decision: a
passing roll whose path is accepted always broadcasts.  Overlapping paths
for the same NPC are resolved solely by `startNpcMovementTimer`
cancelling the prior completion timer keyed by the instance id. -/
theorem movepath_never_assigned :
    (∀ raw : RawNpc, raw.movePath = none ∨ raw.movePath = some none →
      (ensureMoveFields raw).movePath = none)
    ∧ (∀ npc randRoll target roomTiles timers,
      (npcRoamStep npc randRoll target roomTiles timers).1 = npc)
    ∧ (∀ npc t timers,
      (npcTimerComplete npc t timers).1.movePath = npc.movePath)
    ∧ (∀ npc roam randRoll target roomTiles timers path,
      npc.roam = some roam → roam.roamType = "random" → npc.movePath = none →
      randRoll < roam.frequency →
      findPath (npc.x, npc.y) target roomTiles = some path →
      1 < path.length →
      (path.length : Int) - 1 ≥ roam.minDuration →
      (path.length : Int) - 1 ≤ roam.maxDuration →
      (npcRoamStep npc randRoll target roomTiles timers).2.2 ≠ [])
    ∧ (∀ id t timers,
      (startNpcMovementTimer id t timers).filter (fun e => e.1 == id) =
        [(id, t)]
      ∧ (startNpcMovementTimer id t timers).filter (fun e => e.1 != id) =
        timers.filter (fun e => e.1 != id)) := by
  refine ⟨?_, ?_, ?_, ?_, ?_⟩
  · intro raw h
    rcases h with h | h <;> simp [ensureMoveFields, h]
  · intro npc randRoll target roomTiles timers
    unfold npcRoamStep
    cases npc.roam with
    | none => rfl
    | some roam =>
      dsimp only
      split
      · rfl
      · split
        · rfl
        · split
          · cases hfp : findPath (npc.x, npc.y) target roomTiles with
            | none => rfl
            | some path =>
              dsimp only
              split
              · split <;> rfl
              · rfl
          · rfl
  · intro npc t timers
    rfl
  · intro npc roam randRoll target roomTiles timers path hroam htype hmp hroll
      hfp hlen hmin hmax
    have htype' : (roam.roamType != "random") = false := by
      simp [htype]
    have hmp' : npc.movePath.isSome = false := by simp [hmp]
    simp [npcRoamStep, hroam, htype', hmp', hroll, hfp, hlen, hmin, hmax]
  · intro id t timers
    constructor
    · simp only [startNpcMovementTimer, clearNpcMovementTimerFn,
        List.filter_append, List.filter_filter]
      have h1 : ∀ e : String × PendingTimer,
          ((e.1 == id) && (e.1 != id)) = false := by
        intro e
        cases h : e.1 == id <;> simp [bne, h]
      simp [h1]
    · simp only [startNpcMovementTimer, clearNpcMovementTimerFn,
        List.filter_append, List.filter_filter]
      simp

/-- Witness for `movepath_never_assigned`: starting a new timer for "n1"
replaces its pending timer and leaves "n2" untouched. -/
theorem movepath_never_assigned_witness :
    (startNpcMovementTimer "n1" { targetX := 3, targetY := 4, delay := 640 }
      [("n1", { targetX := 0, targetY := 0, delay := 320 }),
       ("n2", { targetX := 5, targetY := 5, delay := 320 })]).filter
      (fun e => e.1 == "n1") =
      [("n1", { targetX := 3, targetY := 4, delay := 640 })] :=
  (movepath_never_assigned.2.2.2.2 "n1"
    { targetX := 3, targetY := 4, delay := 640 }
    [("n1", { targetX := 0, targetY := 0, delay := 320 }),
     ("n2", { targetX := 5, targetY := 5, delay := 320 })]).1

/-! ### Specification of the pathfinder

The BFS treats a coordinate as enterable iff it is in bounds and its
tile's terrain is not `"void"`; the start tile itself is never checked
(the code only inspects destination tiles).  A valid path is a chain of
4-adjacent coordinates from `s` to `e` whose every coordinate after the
head is enterable. -/

/-- In-bounds test (negation of the skip condition at server.js:610). -/
def inBounds (rows cols : Nat) (c : Coord) : Prop :=
  0 ≤ c.1 ∧ c.1 < (cols : Int) ∧ 0 ≤ c.2 ∧ c.2 < (rows : Int)

instance (rows cols : Nat) (c : Coord) : Decidable (inBounds rows cols c) :=
  inferInstanceAs (Decidable (_ ∧ _ ∧ _ ∧ _))

/-- A coordinate the BFS may step onto: in bounds, with a tile whose
terrain is not `"void"`. -/
def canEnter (tiles : List (List Tile)) (rows cols : Nat) (c : Coord) : Bool :=
  decide (inBounds rows cols c) &&
  (match terrainAt tiles c.1 c.2 with
   | none => false
   | some t => t != some "void")

/-- 4-adjacency: the step is one of the four direction vectors. -/
def adjStep (a b : Coord) : Prop := (b.1 - a.1, b.2 - a.2) ∈ dirs

/-- The four neighbor coordinates of `c`, in expansion order. -/
def neighborList (c : Coord) : List Coord :=
  dirs.map (fun d => (c.1 + d.1, c.2 + d.2))

/-- A valid path from `s` to `e`. -/
def GoodPath (tiles : List (List Tile)) (rows cols : Nat) (s e : Coord)
    (p : List Coord) : Prop :=
  p.head? = some s ∧ p.getLast? = some e ∧ List.Chain' adjStep p ∧
  ∀ c ∈ p.tail, canEnter tiles rows cols c = true

theorem adjStep_iff_mem_neighborList (a b : Coord) :
    adjStep a b ↔ b ∈ neighborList a := by
  unfold adjStep neighborList dirs
  simp only [List.map_cons, List.map_nil, List.mem_cons, List.not_mem_nil,
    or_false, Prod.mk.injEq, Prod.ext_iff]
  omega

/-- The neighbors that pass the full expansion test against a visited set:
in bounds, non-void terrain, not yet visited. -/
def newNeighbors (tiles : List (List Tile)) (rows cols : Nat) (V : Finset Coord)
    (c : Coord) : List Coord :=
  (neighborList c).filter
    (fun n => canEnter tiles rows cols n && decide (n ∉ V))

/-- One expansion step of the BFS, re-expressed through `canEnter`: the
step adds the neighbor exactly when it is enterable and unvisited. -/
theorem bfsExpand_eq (tiles : List (List Tile)) (rows cols : Nat)
    (path : List Coord) (x y : Int) (V : Finset Coord) (q : List (List Coord))
    (d : Coord) :
    bfsExpand tiles rows cols path x y (V, q) d =
      (if (canEnter tiles rows cols (x + d.1, y + d.2) &&
            decide ((x + d.1, y + d.2) ∉ V)) = true
       then (insert (x + d.1, y + d.2) V, q ++ [path ++ [(x + d.1, y + d.2)]])
       else (V, q)) := by
  by_cases hb : inBounds rows cols (x + d.1, y + d.2)
  · by_cases hv : (x + d.1, y + d.2) ∈ V
    · have hnb : ¬ (x + d.1 < 0 ∨ y + d.2 < 0 ∨ (cols : Int) ≤ x + d.1 ∨
          (rows : Int) ≤ y + d.2) := by
        obtain ⟨h1, h2, h3, h4⟩ := hb
        push_neg
        exact ⟨by omega, by omega, by omega, by omega⟩
      simp [bfsExpand, hnb, hv]
    · have hnb : ¬ (x + d.1 < 0 ∨ y + d.2 < 0 ∨ (cols : Int) ≤ x + d.1 ∨
          (rows : Int) ≤ y + d.2) := by
        obtain ⟨h1, h2, h3, h4⟩ := hb
        push_neg
        exact ⟨by omega, by omega, by omega, by omega⟩
      cases ht : terrainAt tiles (x + d.1) (y + d.2) with
      | none => simp [bfsExpand, hnb, hv, canEnter, ht]
      | some t =>
        by_cases hvoid : t = some "void"
        · simp [bfsExpand, hnb, hv, canEnter, ht, hvoid]
        · simp [bfsExpand, hnb, hv, canEnter, ht, hvoid, hb]
  · have hnb : x + d.1 < 0 ∨ y + d.2 < 0 ∨ (cols : Int) ≤ x + d.1 ∨
        (rows : Int) ≤ y + d.2 := by
      unfold inBounds at hb
      push_neg at hb
      omega
    simp [bfsExpand, hnb, canEnter, hb]

/-- Characterization of the direction fold of one BFS iteration: starting
from `(V, q)`, folding `bfsExpand` over a direction list whose generated
neighbor coordinates are distinct yields exactly the enterable unvisited
neighbors appended, in order, to the visited set and (as extended paths)
to the queue. -/
theorem foldl_bfsExpand (tiles : List (List Tile)) (rows cols : Nat)
    (path : List Coord) (x y : Int) :
    ∀ (ds : List Coord) (V : Finset Coord) (q : List (List Coord)),
      (ds.map (fun d => ((x + d.1 : Int), (y + d.2 : Int)))).Nodup →
      ds.foldl (bfsExpand tiles rows cols path x y) (V, q) =
        (V ∪ ((ds.map (fun d => ((x + d.1 : Int), (y + d.2 : Int)))).filter
            (fun n => canEnter tiles rows cols n && decide (n ∉ V))).toFinset,
         q ++ ((ds.map (fun d => ((x + d.1 : Int), (y + d.2 : Int)))).filter
            (fun n => canEnter tiles rows cols n && decide (n ∉ V))).map
            (fun n => path ++ [n])) := by
  intro ds
  induction ds with
  | nil => intro V q _; simp
  | cons d ds ih =>
    intro V q hnd
    simp only [List.map_cons, List.nodup_cons] at hnd
    obtain ⟨hd_notin, hnd'⟩ := hnd
    simp only [List.foldl_cons, bfsExpand_eq]
    by_cases hc : (canEnter tiles rows cols (x + d.1, y + d.2) &&
        decide ((x + d.1, y + d.2) ∉ V)) = true
    · rw [if_pos hc]
      rw [ih (insert (x + d.1, y + d.2) V) (q ++ [path ++ [(x + d.1, y + d.2)]]) hnd']
      have hfeq : (ds.map (fun d => ((x + d.1 : Int), (y + d.2 : Int)))).filter
            (fun n => canEnter tiles rows cols n &&
              decide (n ∉ insert (x + d.1, y + d.2) V)) =
          (ds.map (fun d => ((x + d.1 : Int), (y + d.2 : Int)))).filter
            (fun n => canEnter tiles rows cols n && decide (n ∉ V)) := by
        apply List.filter_congr
        intro n hn
        have hne : n ≠ (x + d.1, y + d.2) := by
          intro h
          exact hd_notin (h ▸ hn)
        simp [Finset.mem_insert, hne]
      rw [hfeq]
      have hfc : (List.map (fun d => ((x + d.1 : Int), (y + d.2 : Int))) (d :: ds)).filter
            (fun n => canEnter tiles rows cols n && decide (n ∉ V)) =
          (x + d.1, y + d.2) ::
            (List.map (fun d => ((x + d.1 : Int), (y + d.2 : Int))) ds).filter
              (fun n => canEnter tiles rows cols n && decide (n ∉ V)) := by
        have hc2 := hc
        rw [Bool.and_eq_true, decide_eq_true_eq] at hc2
        simp [List.filter_cons, hc2.1, hc2.2]
      rw [hfc]
      simp only [List.toFinset_cons, List.map_cons, Prod.mk.injEq]
      constructor
      · ext a
        simp only [Finset.mem_union, Finset.mem_insert, List.mem_toFinset]
        tauto
      · simp
    · rw [if_neg hc]
      rw [ih V q hnd']
      have hc' : (canEnter tiles rows cols (x + d.1, y + d.2) &&
          decide ((x + d.1, y + d.2) ∉ V)) = false := by
        simpa using hc
      have hfc : (List.map (fun d => ((x + d.1 : Int), (y + d.2 : Int))) (d :: ds)).filter
            (fun n => canEnter tiles rows cols n && decide (n ∉ V)) =
          (List.map (fun d => ((x + d.1 : Int), (y + d.2 : Int))) ds).filter
            (fun n => canEnter tiles rows cols n && decide (n ∉ V)) := by
        have hc2 : ¬ (canEnter tiles rows cols (x + d.1, y + d.2) = true ∧
            (x + d.1, y + d.2) ∉ V) := by
          intro hand
          exact hc (by rw [Bool.and_eq_true, decide_eq_true_eq]; exact hand)
        simp [List.filter_cons, hc2]
      rw [hfc]

theorem neighborList_nodup (c : Coord) : (neighborList c).Nodup := by
  unfold neighborList dirs
  simp only [List.map_cons, List.map_nil, List.nodup_cons, List.mem_cons,
    List.not_mem_nil, or_false, List.mem_singleton, Prod.mk.injEq,
    List.nodup_nil, and_true, not_or, true_and, not_false_iff, not_and]
  omega

theorem mem_newNeighbors {tiles : List (List Tile)} {rows cols : Nat}
    {V : Finset Coord} {c n : Coord} :
    n ∈ newNeighbors tiles rows cols V c ↔
      n ∈ neighborList c ∧ canEnter tiles rows cols n = true ∧ n ∉ V := by
  unfold newNeighbors
  rw [List.mem_filter]
  simp [and_assoc]

theorem newNeighbors_nodup (tiles : List (List Tile)) (rows cols : Nat)
    (V : Finset Coord) (c : Coord) : (newNeighbors tiles rows cols V c).Nodup :=
  (neighborList_nodup c).filter _

/-- The direction fold of one BFS iteration, in terms of `newNeighbors`. -/
theorem foldl_dirs (tiles : List (List Tile)) (rows cols : Nat)
    (path : List Coord) (c : Coord) (V : Finset Coord)
    (rest : List (List Coord)) :
    dirs.foldl (bfsExpand tiles rows cols path c.1 c.2) (V, rest) =
      (V ∪ (newNeighbors tiles rows cols V c).toFinset,
       rest ++ (newNeighbors tiles rows cols V c).map (fun n => path ++ [n])) := by
  have hnd : (dirs.map (fun d => ((c.1 + d.1 : Int), (c.2 + d.2 : Int)))).Nodup :=
    neighborList_nodup c
  exact foldl_bfsExpand tiles rows cols path c.1 c.2 dirs V rest hnd

/-! ### Valid-path lemmas -/

theorem goodPath_ne_nil {tiles : List (List Tile)} {rows cols : Nat}
    {s e : Coord} {p : List Coord} (h : GoodPath tiles rows cols s e p) :
    p ≠ [] := by
  intro hnil
  rw [hnil] at h
  exact Option.noConfusion h.1

theorem goodPath_length_pos {tiles : List (List Tile)} {rows cols : Nat}
    {s e : Coord} {p : List Coord} (h : GoodPath tiles rows cols s e p) :
    1 ≤ p.length :=
  List.length_pos.mpr (goodPath_ne_nil h)

theorem goodPath_singleton (tiles : List (List Tile)) (rows cols : Nat)
    (s : Coord) : GoodPath tiles rows cols s s [s] :=
  ⟨rfl, rfl, List.chain'_singleton s, by simp⟩

theorem goodPath_start_eq {tiles : List (List Tile)} {rows cols : Nat}
    {s e : Coord} {p : List Coord} (h : GoodPath tiles rows cols s e p)
    (hlen : p.length = 1) : e = s := by
  cases p with
  | nil => simp at hlen
  | cons a t =>
    cases t with
    | nil =>
      have h1 : a = s := by simpa using h.1
      have h2 : a = e := by simpa using h.2.1
      rw [← h1, h2]
    | cons b t' => simp at hlen

theorem goodPath_extend {tiles : List (List Tile)} {rows cols : Nat}
    {s e n : Coord} {p : List Coord} (h : GoodPath tiles rows cols s e p)
    (hadj : adjStep e n) (hce : canEnter tiles rows cols n = true) :
    GoodPath tiles rows cols s n (p ++ [n]) := by
  obtain ⟨hh, hl, hc, ht⟩ := h
  have hne : p ≠ [] := by
    intro hnil; rw [hnil] at hh; exact Option.noConfusion hh
  refine ⟨?_, ?_, ?_, ?_⟩
  · cases p with
    | nil => exact absurd rfl hne
    | cons a t => simpa using hh
  · exact List.getLast?_concat p
  · rw [List.chain'_append]
    refine ⟨hc, List.chain'_singleton n, ?_⟩
    intro x hx y hy
    have hx' : x = e := by
      rw [Option.mem_def, hl] at hx
      exact (Option.some_inj.mp hx).symm
    have hy' : y = n := by
      simp only [List.head?_cons, Option.mem_def, Option.some.injEq] at hy
      exact hy.symm
    rw [hx', hy']
    exact hadj
  · cases p with
    | nil => exact absurd rfl hne
    | cons a t =>
      intro cc hcc
      simp only [List.cons_append, List.tail_cons, List.mem_append,
        List.mem_singleton] at hcc
      rcases hcc with hcc | hcc
      · exact ht cc (by simpa using hcc)
      · rw [hcc]; exact hce

/-- Splitting off the last step of a valid path of length ≥ 2: the
initial segment is a valid path to the penultimate coordinate, the last
step is adjacent, and the endpoint is enterable. -/
theorem goodPath_split_last {tiles : List (List Tile)} {rows cols : Nat}
    {s e : Coord} {q : List Coord} (h : GoodPath tiles rows cols s e q)
    (hlen : 2 ≤ q.length) :
    ∃ e', q.dropLast.getLast? = some e' ∧
      GoodPath tiles rows cols s e' q.dropLast ∧ adjStep e' e ∧
      canEnter tiles rows cols e = true ∧ q.dropLast.length + 1 = q.length := by
  obtain ⟨hh, hl, hc, ht⟩ := h
  have hne : q ≠ [] := by
    intro hnil; rw [hnil] at hh; exact Option.noConfusion hh
  have hdne : q.dropLast ≠ [] := by
    intro hnil
    have := List.length_dropLast q
    rw [hnil] at this
    simp at this
    omega
  have hgl : q.getLast hne = e := by
    have := List.getLast?_eq_getLast q hne
    rw [hl] at this
    exact (Option.some_inj.mp this).symm
  have hsplit : q.dropLast ++ [e] = q := by
    rw [← hgl]; exact List.dropLast_append_getLast hne
  refine ⟨q.dropLast.getLast hdne, List.getLast?_eq_getLast _ hdne, ?_, ?_, ?_, ?_⟩
  · refine ⟨?_, List.getLast?_eq_getLast _ hdne, ?_, ?_⟩
    · cases q with
      | nil => exact absurd rfl hne
      | cons a t =>
        cases t with
        | nil => simp at hlen
        | cons b t' =>
          simp only [List.dropLast_cons₂, List.head?_cons]
          simpa using hh
    · have := hc
      rw [← hsplit, List.chain'_append] at this
      exact this.1
    · intro cc hcc
      apply ht
      cases q with
      | nil => exact absurd rfl hne
      | cons a t =>
        cases t with
        | nil => simp at hlen
        | cons b t' =>
          simp only [List.dropLast_cons₂, List.tail_cons] at hcc
          simp only [List.tail_cons]
          exact (List.dropLast_sublist (b :: t')).mem hcc
  · have := hc
    rw [← hsplit, List.chain'_append] at this
    refine this.2.2 _ (List.getLast?_eq_getLast _ hdne) e ?_
    simp
  · apply ht
    cases q with
    | nil => exact absurd rfl hne
    | cons a t =>
      cases t with
      | nil => simp at hlen
      | cons b t' =>
        simp only [List.tail_cons]
        have hl' := hl
        rw [List.getLast?_cons_cons] at hl'
        obtain ⟨hne2, hx⟩ := List.mem_getLast?_eq_getLast (l := b :: t') (x := e)
          (by rw [Option.mem_def]; exact hl')
        rw [hx]
        exact List.getLast_mem hne2
  · have := List.length_dropLast q
    omega

/-- In a closed visited set containing the start, every coordinate of a
valid path is visited. -/
theorem path_nodes_in_closed {tiles : List (List Tile)} {rows cols : Nat}
    {V : Finset Coord} (hclosed : ∀ v ∈ V, ∀ n ∈ neighborList v,
      canEnter tiles rows cols n = true → n ∈ V) :
    ∀ (p : List Coord) (h : Coord), p.head? = some h → h ∈ V →
      List.Chain' adjStep p → (∀ c ∈ p.tail, canEnter tiles rows cols c = true) →
      ∀ c ∈ p, c ∈ V := by
  intro p
  induction p with
  | nil => intro h hh _ _ _ c hc; simp at hc
  | cons a t ih =>
    intro h hh hhv hchain htail c hc
    have ha : a = h := by simpa using hh
    rcases List.mem_cons.mp hc with hceq | hct
    · rw [hceq, ha]; exact hhv
    · cases t with
      | nil => simp at hct
      | cons b t' =>
        have hab : adjStep a b := (List.chain'_cons.mp hchain).1
        have hbv : b ∈ V := by
          apply hclosed h hhv b
          · rw [← ha]
            exact (adjStep_iff_mem_neighborList a b).mp hab
          · exact htail b (by simp)
        exact ih b rfl hbv (List.chain'_cons.mp hchain).2
          (fun d hd => htail d (List.mem_cons_of_mem b (by simpa using hd))) c hct

theorem mem_of_getLast?_eq_some {α : Type} {l : List α} {x : α}
    (h : l.getLast? = some x) : x ∈ l := by
  obtain ⟨hne, hx⟩ := List.mem_getLast?_eq_getLast (l := l) (x := x)
    (by rw [Option.mem_def]; exact h)
  rw [hx]
  exact List.getLast_mem hne

/-! ### The BFS loop invariant -/

/-- The in-bounds coordinates as a finite set. -/
def gridCoords (rows cols : Nat) : Finset Coord :=
  Finset.Icc (0 : Int) ((cols : Int) - 1) ×ˢ Finset.Icc (0 : Int) ((rows : Int) - 1)

theorem mem_gridCoords {rows cols : Nat} {c : Coord} :
    c ∈ gridCoords rows cols ↔ inBounds rows cols c := by
  unfold gridCoords inBounds
  rw [Finset.mem_product, Finset.mem_Icc, Finset.mem_Icc]
  omega

theorem gridCoords_card (rows cols : Nat) :
    (gridCoords rows cols).card = cols * rows := by
  unfold gridCoords
  rw [Finset.card_product, Int.card_Icc, Int.card_Icc]
  have h1 : ((cols : Int) - 1 + 1 - 0).toNat = cols := by omega
  have h2 : ((rows : Int) - 1 + 1 - 0).toNat = rows := by omega
  rw [h1, h2]

/-- The invariant of the BFS loop state `(V, Q)`:
every queue entry is a shortest valid path from the start to its endpoint,
endpoints are visited, queue lengths are two consecutive values in order
(`shape`), any valid path to an unvisited coordinate is longer than the
front entry, every visited coordinate either still has its queue entry or
has been fully expanded, and the target — if visited — still has its queue
entry (otherwise the search would already have returned). -/
structure BfsInv (tiles : List (List Tile)) (rows cols : Nat)
    (start endp : Coord) (V : Finset Coord) (Q : List (List Coord)) : Prop where
  start_mem : start ∈ V
  valid : ∀ p ∈ Q, ∃ e, GoodPath tiles rows cols start e p
  ends_vis : ∀ p ∈ Q, ∀ e, p.getLast? = some e → e ∈ V
  shape : ∃ L A B, Q = A ++ B ∧ (∀ p ∈ A, p.length = L) ∧
    (∀ p ∈ B, p.length = L + 1) ∧ 1 ≤ L
  minimalQ : ∀ p ∈ Q, ∀ e, p.getLast? = some e →
    ∀ q, GoodPath tiles rows cols start e q → p.length ≤ q.length
  front_min : ∀ p₁, Q.head? = some p₁ → ∀ e q,
    GoodPath tiles rows cols start e q → e ∉ V → p₁.length < q.length
  cover : ∀ v ∈ V, (∃ p ∈ Q, p.getLast? = some v) ∨
    (∀ n ∈ neighborList v, canEnter tiles rows cols n = true → n ∈ V)
  endp_q : endp ∈ V → ∃ p ∈ Q, p.getLast? = some endp

/-- With an empty queue, the visited set is closed, so no valid path to
the target exists (the target would be visited, and `endp_q` would give a
queue entry). -/
theorem no_path_of_empty_queue {tiles : List (List Tile)} {rows cols : Nat}
    {start endp : Coord} {V : Finset Coord}
    (hInv : BfsInv tiles rows cols start endp V []) :
    ¬ ∃ q, GoodPath tiles rows cols start endp q := by
  rintro ⟨q, hq⟩
  have hclosed : ∀ v ∈ V, ∀ n ∈ neighborList v,
      canEnter tiles rows cols n = true → n ∈ V := by
    intro v hv
    rcases hInv.cover v hv with ⟨p, hp, _⟩ | h
    · simp at hp
    · exact h
  have hendp : endp ∈ V :=
    path_nodes_in_closed hclosed q start hq.1 hInv.start_mem hq.2.2.1 hq.2.2.2
      endp (mem_of_getLast?_eq_some hq.2.1)
  obtain ⟨p, hp, _⟩ := hInv.endp_q hendp
  simp at hp

/-- Expanding one node removes its queue entry, adds the fresh neighbors,
and lowers `|Q| + |grid \ V|` by exactly one queue entry's worth. -/
theorem newNeighbors_card_sdiff (tiles : List (List Tile)) (rows cols : Nat)
    (V : Finset Coord) (e₀ : Coord) :
    ((gridCoords rows cols) \
        (V ∪ (newNeighbors tiles rows cols V e₀).toFinset)).card +
      (newNeighbors tiles rows cols V e₀).length =
    ((gridCoords rows cols) \ V).card := by
  set news := newNeighbors tiles rows cols V e₀ with hnews
  have hsub : news.toFinset ⊆ (gridCoords rows cols) \ V := by
    intro a ha
    rw [List.mem_toFinset] at ha
    obtain ⟨_, hce, hnv⟩ := mem_newNeighbors.mp ha
    rw [Finset.mem_sdiff, mem_gridCoords]
    have hib : inBounds rows cols a := by
      have := (Bool.and_eq_true _ _).mp hce
      exact of_decide_eq_true this.1
    exact ⟨hib, hnv⟩
  have hcard : news.toFinset.card = news.length :=
    List.toFinset_card_of_nodup (newNeighbors_nodup tiles rows cols V e₀)
  have hdist : (gridCoords rows cols) \ (V ∪ news.toFinset) =
      ((gridCoords rows cols) \ V) \ news.toFinset := by
    ext a
    simp only [Finset.mem_sdiff, Finset.mem_union]
    tauto
  rw [hdist, Finset.card_sdiff hsub, hcard]
  have hle : news.length ≤ ((gridCoords rows cols) \ V).card := by
    rw [← hcard]
    exact Finset.card_le_card hsub
  omega

/-- Invariant preservation: popping the front path (whose endpoint is not
the target) and enqueueing its fresh enterable neighbors preserves the BFS
invariant. -/
theorem bfsInv_step {tiles : List (List Tile)} {rows cols : Nat}
    {start endp : Coord} {V : Finset Coord} {path : List Coord}
    {rest : List (List Coord)} {e₀ : Coord}
    (hInv : BfsInv tiles rows cols start endp V (path :: rest))
    (hgood₀ : GoodPath tiles rows cols start e₀ path)
    (hend : e₀ ≠ endp) :
    BfsInv tiles rows cols start endp
      (V ∪ (newNeighbors tiles rows cols V e₀).toFinset)
      (rest ++ (newNeighbors tiles rows cols V e₀).map (fun n => path ++ [n])) := by
  have hlast : path.getLast? = some e₀ := hgood₀.2.1
  set news := newNeighbors tiles rows cols V e₀ with hnewsdef
  have hmemnews : ∀ n, n ∈ news ↔ n ∈ neighborList e₀ ∧
      canEnter tiles rows cols n = true ∧ n ∉ V := fun n => mem_newNeighbors
  -- every path in the new queue has length path.length or path.length + 1,
  -- and if the new front has length path.length + 1 then so does all of rest
  obtain ⟨L, A, B, hQab, hA, hB, hL⟩ := hInv.shape
  have hplen : path.length = L ∨ (path.length = L + 1 ∧ A = []) := by
    cases A with
    | nil => right; exact ⟨hB path (by rw [← List.nil_append B, ← hQab]; simp), rfl⟩
    | cons a A' =>
      left
      have : a = path := by
        have := hQab
        simp only [List.cons_append] at this
        exact (List.cons.injEq _ _ _ _ ▸ this).1.symm
      rw [← this]
      exact hA a (by simp)
  refine ⟨?_, ?_, ?_, ?_, ?_, ?_, ?_, ?_⟩
  · exact Finset.mem_union_left _ hInv.start_mem
  · intro p hp
    rcases List.mem_append.mp hp with hp | hp
    · exact hInv.valid p (List.mem_cons_of_mem _ hp)
    · obtain ⟨n, hn, rfl⟩ := List.mem_map.mp hp
      obtain ⟨hnadj, hnce, _⟩ := (hmemnews n).mp hn
      exact ⟨n, goodPath_extend hgood₀
        ((adjStep_iff_mem_neighborList e₀ n).mpr hnadj) hnce⟩
  · intro p hp e he
    rcases List.mem_append.mp hp with hp | hp
    · exact Finset.mem_union_left _ (hInv.ends_vis p (List.mem_cons_of_mem _ hp) e he)
    · obtain ⟨n, hn, rfl⟩ := List.mem_map.mp hp
      rw [List.getLast?_concat] at he
      rw [← Option.some_inj.mp he]
      exact Finset.mem_union_right _ (List.mem_toFinset.mpr hn)
  · -- shape
    rcases hplen with hpl | ⟨hpl, hAnil⟩
    · -- A = path :: A', keep level L
      cases A with
      | nil =>
        have : path.length = L + 1 :=
          hB path (by rw [← List.nil_append B, ← hQab]; simp)
        omega
      | cons a A' =>
        have ha : a = path ∧ rest = A' ++ B := by
          have := hQab
          simp only [List.cons_append, List.cons.injEq] at this
          exact ⟨this.1.symm, this.2⟩
        refine ⟨L, A', B ++ news.map (fun n => path ++ [n]), ?_, ?_, ?_, hL⟩
        · rw [ha.2, List.append_assoc]
        · intro p hp; exact hA p (List.mem_cons_of_mem _ hp)
        · intro p hp
          rcases List.mem_append.mp hp with hp | hp
          · exact hB p hp
          · obtain ⟨n, _, rfl⟩ := List.mem_map.mp hp
            rw [List.length_append, hpl]
            simp
    · -- A = [], move to level L + 1
      have hrest : rest = B.tail := by
        rw [hAnil] at hQab
        simp only [List.nil_append] at hQab
        rw [← hQab]
        rfl
      refine ⟨L + 1, rest, news.map (fun n => path ++ [n]), rfl, ?_, ?_, by omega⟩
      · intro p hp
        rw [hrest] at hp
        exact hB p (List.mem_of_mem_tail hp)
      · intro p hp
        obtain ⟨n, _, rfl⟩ := List.mem_map.mp hp
        rw [List.length_append, hpl]
        simp
  · -- minimalQ
    intro p hp e he q hq
    rcases List.mem_append.mp hp with hp | hp
    · exact hInv.minimalQ p (List.mem_cons_of_mem _ hp) e he q hq
    · obtain ⟨n, hn, rfl⟩ := List.mem_map.mp hp
      rw [List.getLast?_concat] at he
      have hne : n = e := Option.some_inj.mp he
      subst hne
      obtain ⟨_, _, hnV⟩ := (hmemnews n).mp hn
      have := hInv.front_min path rfl n q hq hnV
      rw [List.length_append]
      simpa using this
  · -- front_min
    intro p₁ hp₁ e q hq heV'
    have heV : e ∉ V := fun h => heV' (Finset.mem_union_left _ h)
    have hq_gt : path.length < q.length := hInv.front_min path rfl e q hq heV
    -- all new-queue entries have length path.length or path.length + 1
    have hlen_all : ∀ p' ∈ rest ++ news.map (fun n => path ++ [n]),
        p'.length = path.length ∨ p'.length = path.length + 1 := by
      intro p' hp'
      rcases List.mem_append.mp hp' with hp' | hp'
      · rcases hplen with hpl | ⟨hpl, hAnil⟩
        · cases A with
          | nil =>
            have hcontra : path.length = L + 1 := by
              apply hB
              have hpb : path :: rest = B := by simpa using hQab
              rw [← hpb]; simp
            omega
          | cons a A' =>
            have ha : rest = A' ++ B := by
              have := hQab
              simp only [List.cons_append, List.cons.injEq] at this
              exact this.2
            rw [ha] at hp'
            rcases List.mem_append.mp hp' with h | h
            · left; rw [hA p' (List.mem_cons_of_mem _ h), hpl]
            · right; rw [hB p' h, hpl]
        · have hrest : rest = B.tail := by
            rw [hAnil] at hQab
            simp only [List.nil_append] at hQab
            rw [← hQab]
            rfl
          left
          rw [hrest] at hp'
          rw [hB p' (List.mem_of_mem_tail hp'), hpl]
      · obtain ⟨n, _, rfl⟩ := List.mem_map.mp hp'
        right
        simp
    have hp₁mem : p₁ ∈ rest ++ news.map (fun n => path ++ [n]) :=
      List.mem_of_mem_head? (by rw [Option.mem_def]; exact hp₁)
    rcases hlen_all p₁ hp₁mem with h1 | h1
    · omega
    · -- boundary case: show q.length ≠ path.length + 1
      by_cases hql : q.length = path.length + 1
      · exfalso
        have hqlen2 : 2 ≤ q.length := by
          have := goodPath_length_pos hgood₀
          omega
        obtain ⟨e', he', hq', hadj, hce, hlen'⟩ := goodPath_split_last hq hqlen2
        have hq'len : q.dropLast.length = path.length := by omega
        by_cases he'V : e' ∈ V
        · rcases hInv.cover e' he'V with ⟨pe, hpe, hpel⟩ | hclose
          · rcases List.mem_cons.mp hpe with rfl | hperest
            · -- pe = path: e' = e₀, so e is a fresh neighbor of e₀
              have he'e₀ : e' = e₀ := by
                rw [hlast] at hpel
                exact (Option.some_inj.mp hpel).symm
              have hemem : e ∈ neighborList e₀ :=
                (adjStep_iff_mem_neighborList e₀ e).mp (he'e₀ ▸ hadj)
              have : e ∈ news := (hmemnews e).mpr ⟨hemem, hce, heV⟩
              exact heV' (Finset.mem_union_right _ (List.mem_toFinset.mpr this))
            · -- pe in rest: rest entries all have length path.length + 1,
              -- but pe is a shortest path to e' of length ≤ path.length
              have hrest1 : ∀ pe' ∈ rest, pe'.length = path.length + 1 := by
                intro pe' hpe'
                -- p₁ is the head of rest ++ …; if rest ≠ [] then p₁ ∈ rest
                cases hr : rest with
                | nil => rw [hr] at hpe'; simp at hpe'
                | cons r0 rs =>
                  have hp₁r : p₁ = r0 := by
                    rw [hr] at hp₁
                    simp only [List.cons_append, List.head?_cons,
                      Option.some_inj] at hp₁
                    exact hp₁.symm
                  -- r0's length equals p₁.length = path.length + 1;
                  -- shape forces all of rest to that length
                  rcases hplen with hpl | ⟨hpl, hAnil⟩
                  · cases A with
                    | nil =>
                      have hcontra : path.length = L + 1 := by
                        apply hB
                        have hpb : path :: rest = B := by simpa using hQab
                        rw [← hpb]; simp
                      omega
                    | cons a A' =>
                      have ha : rest = A' ++ B := by
                        have := hQab
                        simp only [List.cons_append, List.cons.injEq] at this
                        exact this.2
                      -- if A' were nonempty, p₁ ∈ A' would have length L = path.length
                      cases hA' : A' with
                      | cons a' A'' =>
                        exfalso
                        have : r0 = a' := by
                          rw [ha, hA'] at hr
                          simp only [List.cons_append, List.cons.injEq] at hr
                          exact hr.1.symm
                        have hr0len : r0.length = L := by
                          rw [this]
                          exact hA a' (by rw [hA']; simp)
                        rw [← hp₁r] at hr0len
                        omega
                      | nil =>
                        have hrB : rest = B := by rw [ha, hA']; simp
                        rw [hrB] at hpe'
                        rw [hB pe' hpe', hpl]
                  · -- A = []: rest = B.tail, all length L + 1 = path.length — but then
                    -- p₁.length = path.length contradicts h1
                    exfalso
                    have hrest : rest = B.tail := by
                      rw [hAnil] at hQab
                      simp only [List.nil_append] at hQab
                      rw [← hQab]
                      rfl
                    have : r0.length = L + 1 := by
                      apply hB
                      apply List.mem_of_mem_tail
                      rw [← hrest, hr]
                      simp
                    rw [← hp₁r] at this
                    omega
              have hpelen := hrest1 pe hperest
              have := hInv.minimalQ pe (List.mem_cons_of_mem _ hperest) e' hpel
                q.dropLast hq'
              omega
          · exact heV (hclose e ((adjStep_iff_mem_neighborList e' e).mp hadj) hce)
        · have := hInv.front_min path rfl e' q.dropLast hq' he'V
          omega
      · omega
  · -- cover
    intro v hv
    rcases Finset.mem_union.mp hv with hv | hv
    · by_cases hv₀ : v = e₀
      · right
        intro n hn hce
        subst hv₀
        by_cases hnv : n ∈ V
        · exact Finset.mem_union_left _ hnv
        · exact Finset.mem_union_right _
            (List.mem_toFinset.mpr ((hmemnews n).mpr ⟨hn, hce, hnv⟩))
      · rcases hInv.cover v hv with ⟨pe, hpe, hpel⟩ | hclose
        · rcases List.mem_cons.mp hpe with rfl | hperest
          · exfalso
            apply hv₀
            rw [hlast] at hpel
            exact (Option.some_inj.mp hpel).symm
          · exact Or.inl ⟨pe, List.mem_append_left _ hperest, hpel⟩
        · exact Or.inr fun n hn hce => Finset.mem_union_left _ (hclose n hn hce)
    · left
      rw [List.mem_toFinset] at hv
      exact ⟨path ++ [v],
        List.mem_append_right _ (List.mem_map.mpr ⟨v, hv, rfl⟩),
        List.getLast?_concat path⟩
  · -- endp_q
    intro hv
    rcases Finset.mem_union.mp hv with hv | hv
    · obtain ⟨pe, hpe, hpel⟩ := hInv.endp_q hv
      rcases List.mem_cons.mp hpe with rfl | hperest
      · exfalso
        apply hend
        rw [hlast] at hpel
        exact Option.some_inj.mp hpel
      · exact ⟨pe, List.mem_append_left _ hperest, hpel⟩
    · rw [List.mem_toFinset] at hv
      exact ⟨path ++ [endp],
        List.mem_append_right _ (List.mem_map.mpr ⟨endp, hv, rfl⟩),
        List.getLast?_concat path⟩

/-- Correctness of the fuelled BFS loop: under the loop invariant and with
fuel at least `|Q| + |grid \ V|` (which strictly decreases each
iteration), a returned path is a shortest valid path to the target, and a
`none` result means no valid path exists. -/
theorem findPathAux_correct (tiles : List (List Tile)) (rows cols : Nat)
    (start endp : Coord) :
    ∀ (fuel : Nat) (V : Finset Coord) (Q : List (List Coord)),
      BfsInv tiles rows cols start endp V Q →
      Q.length + ((gridCoords rows cols) \ V).card ≤ fuel →
      (∀ p, findPathAux tiles endp rows cols fuel V Q = some p →
        GoodPath tiles rows cols start endp p ∧
        ∀ q, GoodPath tiles rows cols start endp q → p.length ≤ q.length)
      ∧ (findPathAux tiles endp rows cols fuel V Q = none →
        ¬ ∃ q, GoodPath tiles rows cols start endp q) := by
  intro fuel
  induction fuel with
  | zero =>
    intro V Q hInv hm
    have hQ : Q = [] := by
      cases Q with
      | nil => rfl
      | cons p ps => simp at hm
    subst hQ
    exact ⟨fun p hp => by simp [findPathAux] at hp,
           fun _ => no_path_of_empty_queue hInv⟩
  | succ fuel ih =>
    intro V Q hInv hm
    cases Q with
    | nil =>
      exact ⟨fun p hp => by simp [findPathAux] at hp,
             fun _ => no_path_of_empty_queue hInv⟩
    | cons path rest =>
      obtain ⟨e₀, hgood₀⟩ := hInv.valid path (by simp)
      have hlast : path.getLast? = some e₀ := hgood₀.2.1
      by_cases hend : e₀ = endp
      · subst hend
        have heq : findPathAux tiles e₀ rows cols (fuel + 1) V (path :: rest) =
            some path := by
          simp [findPathAux, hlast]
        refine ⟨fun p hp => ?_, fun hp => ?_⟩
        · rw [heq] at hp
          have hpp : path = p := Option.some_inj.mp hp
          subst hpp
          exact ⟨hgood₀, hInv.minimalQ path (by simp) e₀ hlast⟩
        · rw [heq] at hp
          exact Option.noConfusion hp
      · have hstep : findPathAux tiles endp rows cols (fuel + 1) V (path :: rest) =
            findPathAux tiles endp rows cols fuel
              (V ∪ (newNeighbors tiles rows cols V e₀).toFinset)
              (rest ++ (newNeighbors tiles rows cols V e₀).map
                (fun n => path ++ [n])) := by
          have hfold := foldl_dirs tiles rows cols path e₀ V rest
          simp only [findPathAux, hlast, hend, if_false]
          rw [hfold]
        have hInv' := bfsInv_step hInv hgood₀ hend
        have hm' : (rest ++ (newNeighbors tiles rows cols V e₀).map
              (fun n => path ++ [n])).length +
            ((gridCoords rows cols) \
              (V ∪ (newNeighbors tiles rows cols V e₀).toFinset)).card ≤ fuel := by
          have hmeq := newNeighbors_card_sdiff tiles rows cols V e₀
          simp only [List.length_append, List.length_map]
          simp only [List.length_cons] at hm
          omega
        rw [hstep]
        exact ih _ _ hInv' hm'

/-- The invariant holds for the initial state `({start}, [[start]])`. -/
theorem bfsInv_init (tiles : List (List Tile)) (rows cols : Nat)
    (start endp : Coord) :
    BfsInv tiles rows cols start endp {start} [[start]] := by
  refine ⟨?_, ?_, ?_, ?_, ?_, ?_, ?_, ?_⟩
  · simp
  · intro p hp
    simp only [List.mem_singleton] at hp
    subst hp
    exact ⟨start, goodPath_singleton tiles rows cols start⟩
  · intro p hp e he
    simp only [List.mem_singleton] at hp
    subst hp
    simp only [List.getLast?_singleton, Option.some_inj] at he
    simp [← he]
  · refine ⟨1, [[start]], [], rfl, ?_, by simp, le_refl 1⟩
    intro p hp
    simp only [List.mem_singleton] at hp
    simp [hp]
  · intro p hp e he q hq
    simp only [List.mem_singleton] at hp
    subst hp
    have := goodPath_length_pos hq
    simpa using this
  · intro p₁ hp₁ e q hq heV
    simp only [List.head?_cons, Option.some_inj] at hp₁
    rw [← hp₁]
    simp only [List.length_singleton]
    have h1 := goodPath_length_pos hq
    rcases Nat.lt_or_ge 1 q.length with h | h
    · exact h
    · exfalso
      have hq1 : q.length = 1 := by omega
      have := goodPath_start_eq hq hq1
      rw [this] at heV
      simp at heV
  · intro v hv
    simp only [Finset.mem_singleton] at hv
    subst hv
    exact Or.inl ⟨[v], by simp, by simp⟩
  · intro hv
    simp only [Finset.mem_singleton] at hv
    exact ⟨[start], by simp, by simp [hv]⟩

/-- Correctness of `findPath`: a returned path is a shortest valid path
from `start` to `endp`, and a `none` result means no valid path exists
(start and target disconnected under the code's traversability). -/
theorem findPath_correct (tiles : List (List Tile)) (start endp : Coord) :
    (∀ p, findPath start endp tiles = some p →
      GoodPath tiles tiles.length (tiles.headD []).length start endp p ∧
      ∀ q, GoodPath tiles tiles.length (tiles.headD []).length start endp q →
        p.length ≤ q.length)
    ∧ (findPath start endp tiles = none →
      ¬ ∃ q, GoodPath tiles tiles.length (tiles.headD []).length start endp q) := by
  have hm : (1 : Nat) +
      ((gridCoords tiles.length (tiles.headD []).length) \ {start}).card ≤
      tiles.length * (tiles.headD []).length + 1 := by
    have hsub := Finset.card_le_card
      (Finset.sdiff_subset (s := gridCoords tiles.length (tiles.headD []).length)
        (t := {start}))
    have hcard := gridCoords_card tiles.length (tiles.headD []).length
    have := Nat.mul_comm tiles.length (tiles.headD []).length
    omega
  have h := findPathAux_correct tiles tiles.length (tiles.headD []).length
    start endp (tiles.length * (tiles.headD []).length + 1) {start} [[start]]
    (bfsInv_init tiles tiles.length (tiles.headD []).length start endp)
    (by simpa using hm)
  exact h

/-- Manhattan distance between two tile coordinates. -/
def manDist (a b : Coord) : Nat :=
  (a.1 - b.1).natAbs + (a.2 - b.2).natAbs

/-- On a rectangular grid with no void tiles, every in-bounds coordinate
is enterable. -/
theorem canEnter_of_noVoid {tiles : List (List Tile)} {rows cols : Nat}
    (hr1 : tiles.length = rows) (hr2 : ∀ row ∈ tiles, row.length = cols)
    (hnv : ∀ row ∈ tiles, ∀ t ∈ row, t.terrain ≠ some "void")
    {c : Coord} (hib : inBounds rows cols c) :
    canEnter tiles rows cols c = true := by
  unfold canEnter
  rw [Bool.and_eq_true]
  refine ⟨decide_eq_true hib, ?_⟩
  obtain ⟨h1, h2, h3, h4⟩ := hib
  have hy : c.2.toNat < tiles.length := by omega
  have hrow : tiles[c.2.toNat]? = some tiles[c.2.toNat] :=
    List.getElem?_eq_getElem hy
  have hrowmem : tiles[c.2.toNat] ∈ tiles := List.getElem_mem hy
  have hx : c.1.toNat < tiles[c.2.toNat].length := by
    rw [hr2 _ hrowmem]
    omega
  have htile : tiles[c.2.toNat][c.1.toNat]? = some tiles[c.2.toNat][c.1.toNat] :=
    List.getElem?_eq_getElem hx
  have htilemem : tiles[c.2.toNat][c.1.toNat] ∈ tiles[c.2.toNat] :=
    List.getElem_mem hx
  unfold terrainAt
  simp only [hrow]
  simp only [htile]
  exact bne_iff_ne.mpr (hnv _ hrowmem _ htilemem)

/-- One adjacency step changes the Manhattan distance to a fixed target by
at most one. -/
theorem manDist_adj_step {a b e : Coord} (h : adjStep a b) :
    manDist a e ≤ manDist b e + 1 := by
  unfold adjStep dirs at h
  unfold manDist
  simp only [List.mem_cons, List.not_mem_nil, or_false, Prod.mk.injEq,
    List.mem_singleton] at h
  rcases h with ⟨h1, h2⟩ | ⟨h1, h2⟩ | ⟨h1, h2⟩ | ⟨h1, h2⟩ <;> omega

/-- Any adjacency chain from `h` to `e` has at least `manDist h e` edges. -/
theorem manDist_le_of_chain :
    ∀ (p : List Coord) (h e : Coord), p.head? = some h → p.getLast? = some e →
      List.Chain' adjStep p → manDist h e + 1 ≤ p.length := by
  intro p
  induction p with
  | nil => intro h e hh _ _; simp at hh
  | cons a t ih =>
    intro h e hh hl hc
    have ha : a = h := by simpa using hh
    subst ha
    cases t with
    | nil =>
      have hae : a = e := by simpa using hl
      subst hae
      simp [manDist]
    | cons b t' =>
      have hab : adjStep a b := (List.chain'_cons.mp hc).1
      rw [List.getLast?_cons_cons] at hl
      have hrec := ih b e rfl hl (List.chain'_cons.mp hc).2
      have hstep := manDist_adj_step (e := e) hab
      simp only [List.length_cons] at hrec ⊢
      omega

/-- A monotone staircase path of exactly Manhattan length exists between
any two coordinates, and stays inside their bounding box. -/
theorem exists_mono_path :
    ∀ (n : Nat) (a b : Coord), manDist a b = n →
      ∃ p : List Coord, p.head? = some a ∧ p.getLast? = some b ∧
        List.Chain' adjStep p ∧ p.length = n + 1 ∧
        ∀ c ∈ p, min a.1 b.1 ≤ c.1 ∧ c.1 ≤ max a.1 b.1 ∧
          min a.2 b.2 ≤ c.2 ∧ c.2 ≤ max a.2 b.2 := by
  intro n
  induction n with
  | zero =>
    intro a b hm
    have hab : a = b := by
      unfold manDist at hm
      have h1 : a.1 = b.1 := by omega
      have h2 : a.2 = b.2 := by omega
      exact Prod.ext h1 h2
    subst hab
    refine ⟨[a], rfl, rfl, List.chain'_singleton a, rfl, ?_⟩
    intro c hc
    simp only [List.mem_singleton] at hc
    subst hc
    omega
  | succ n ih =>
    intro a b hm
    by_cases hx : a.1 = b.1
    · -- step in y
      have hy : a.2 ≠ b.2 := by
        intro h
        unfold manDist at hm
        omega
      set a' : Coord := (a.1, a.2 + (if a.2 < b.2 then 1 else -1)) with ha'
      have hadj : adjStep a a' := by
        unfold adjStep dirs
        rw [ha']
        by_cases h : a.2 < b.2 <;> simp [h]
      have hm' : manDist a' b = n := by
        unfold manDist at hm ⊢
        rw [ha']
        by_cases h : a.2 < b.2 <;> simp [h] <;> omega
      obtain ⟨p, hh, hl, hc, hlen, hbox⟩ := ih a' b hm'
      have hpne : p ≠ [] := by
        intro hnil; rw [hnil] at hh; exact Option.noConfusion hh
      refine ⟨a :: p, rfl, ?_, ?_, by simp [hlen], ?_⟩
      · cases p with
        | nil => exact absurd rfl hpne
        | cons u t => rw [List.getLast?_cons_cons]; exact hl
      · cases p with
        | nil => exact absurd rfl hpne
        | cons u t =>
          rw [List.chain'_cons]
          have hu : u = a' := by simpa using hh
          exact ⟨hu ▸ hadj, hc⟩
      · intro c hcmem
        rcases List.mem_cons.mp hcmem with rfl | hcp
        · omega
        · have := hbox c hcp
          rw [ha'] at this
          by_cases h : a.2 < b.2 <;> simp [h] at this <;> omega
    · -- step in x
      set a' : Coord := (a.1 + (if a.1 < b.1 then 1 else -1), a.2) with ha'
      have hadj : adjStep a a' := by
        unfold adjStep dirs
        rw [ha']
        by_cases h : a.1 < b.1 <;> simp [h]
      have hm' : manDist a' b = n := by
        unfold manDist at hm ⊢
        rw [ha']
        by_cases h : a.1 < b.1 <;> simp [h] <;> omega
      obtain ⟨p, hh, hl, hc, hlen, hbox⟩ := ih a' b hm'
      have hpne : p ≠ [] := by
        intro hnil; rw [hnil] at hh; exact Option.noConfusion hh
      refine ⟨a :: p, rfl, ?_, ?_, by simp [hlen], ?_⟩
      · cases p with
        | nil => exact absurd rfl hpne
        | cons u t => rw [List.getLast?_cons_cons]; exact hl
      · cases p with
        | nil => exact absurd rfl hpne
        | cons u t =>
          rw [List.chain'_cons]
          have hu : u = a' := by simpa using hh
          exact ⟨hu ▸ hadj, hc⟩
      · intro c hcmem
        rcases List.mem_cons.mp hcmem with rfl | hcp
        · omega
        · have := hbox c hcp
          rw [ha'] at this
          by_cases h : a.1 < b.1 <;> simp [h] at this <;> omega

/-- C4: `findPath` is breadth-first search on the 4-connected grid where a
tile is traversable iff its terrain is not "void" (`canEnter`; the code
checks the destination tile of each step), with neighbor expansion order
`[+x, -x, +y, -y]` (`dirs`): a returned path is an ordered coordinate list
from start to end inclusive forming a shortest valid path; no-path is
returned exactly when start and end are disconnected (no valid path
exists); and for a rectangular room with no "void" tiles, the path
returned between any two in-bounds tiles has length in edges equal to
their Manhattan distance. -/
theorem findPath_spec (tiles : List (List Tile)) (start endp : Coord) :
    (∀ p, findPath start endp tiles = some p →
      p.head? = some start ∧ p.getLast? = some endp ∧
      List.Chain' adjStep p ∧
      (∀ c ∈ p.tail, canEnter tiles tiles.length (tiles.headD []).length c = true) ∧
      ∀ q, GoodPath tiles tiles.length (tiles.headD []).length start endp q →
        p.length ≤ q.length)
    ∧ (findPath start endp tiles = none →
      ¬ ∃ q, GoodPath tiles tiles.length (tiles.headD []).length start endp q)
    ∧ (∀ rows cols, tiles.length = rows → (∀ row ∈ tiles, row.length = cols) →
      (∀ row ∈ tiles, ∀ t ∈ row, t.terrain ≠ some "void") →
      inBounds rows cols start → inBounds rows cols endp →
      ∃ p, findPath start endp tiles = some p ∧
        p.length = manDist start endp + 1) := by
  refine ⟨?_, (findPath_correct tiles start endp).2, ?_⟩
  · intro p hp
    obtain ⟨⟨h1, h2, h3, h4⟩, hmin⟩ := (findPath_correct tiles start endp).1 p hp
    exact ⟨h1, h2, h3, h4, hmin⟩
  · intro rows cols hr1 hr2 hnv hibs hibe
    subst hr1
    have hcols : (tiles.headD []).length = cols := by
      cases tiles with
      | nil =>
        exfalso
        obtain ⟨_, _, h3, h4⟩ := hibs
        simp only [List.length_nil, Nat.cast_zero] at h4
        omega
      | cons r t => exact hr2 r (by simp)
    subst hcols
    obtain ⟨q, hqh, hql, hqc, hqlen, hqbox⟩ :=
      exists_mono_path (manDist start endp) start endp rfl
    have hboxIB : ∀ c ∈ q, inBounds tiles.length (tiles.headD []).length c := by
      intro c hc
      have hb := hqbox c hc
      obtain ⟨s1, s2, s3, s4⟩ := hibs
      obtain ⟨e1, e2, e3, e4⟩ := hibe
      exact ⟨by omega, by omega, by omega, by omega⟩
    have hq : GoodPath tiles tiles.length (tiles.headD []).length start endp q :=
      ⟨hqh, hql, hqc, fun c hc =>
        canEnter_of_noVoid rfl hr2 hnv (hboxIB c (List.mem_of_mem_tail hc))⟩
    cases hres : findPath start endp tiles with
    | none =>
      exact absurd ⟨q, hq⟩ ((findPath_correct tiles start endp).2 hres)
    | some p =>
      obtain ⟨hpgood, hpmin⟩ := (findPath_correct tiles start endp).1 p hres
      refine ⟨p, rfl, ?_⟩
      have hub : p.length ≤ manDist start endp + 1 := by
        have := hpmin q hq
        omega
      have hlb : manDist start endp + 1 ≤ p.length :=
        manDist_le_of_chain p start endp hpgood.1 hpgood.2.1 hpgood.2.2.1
      omega

/-- A plain grass tile for the `findPath_spec` witness grid. -/
def grassTile : Tile :=
  { terrain := some "grass", layers := none, properties := none, tileExits := none }

/-- A 2×2 all-grass room. -/
def grassGrid : List (List Tile) :=
  [[grassTile, grassTile], [grassTile, grassTile]]

/-- Witness for `findPath_spec`: on the 2×2 grass room, the path returned
from (0,0) to (1,1) has 3 tiles (Manhattan length 2). -/
theorem findPath_spec_witness :
    (findPath (0, 0) (1, 1) grassGrid).map List.length = some 3 := by
  obtain ⟨p, hp, hlen⟩ := (findPath_spec grassGrid (0, 0) (1, 1)).2.2 2 2 rfl
    (by decide) (by decide) (by decide) (by decide)
  rw [hp]
  simp only [Option.map_some', hlen]
  rfl

end GoodFido
